import Mathlib

/-!
Shallow embedding of the Viltrum Fitness offline preload & caching subsystem.

Source files embedded here:
* `src/backend/google-apps-script-v7.gs` — the Service-Worker background
  preload orchestrator (`checkPreloadStatus`, `handleBackgroundPreload`),
  namespace `SW`;
* `src/unnamed/part_001` — the page-context `OfflinePreloader`
  (`needsUpdate`, `collectResourcesFromPlans`, `preloadImages`,
  `preloadTTSAudio`, `preloadAll`), namespace `FG`;
* `src/unnamed/part_000` — `GlobalPreloadBar.checkInitialState`,
  namespace `Bar`;
* `src/js/session-cache.js` — `SessionCache.getUserData`, namespace `SC`;
* `src/js/data-preloader.js` — `DataPreloader._expandPhases` and
  `getRunWorkoutExpanded`, namespace `DP`.

Machine time is modelled as integer milliseconds.  Network effects are
modelled by boolean oracles (`fetchOk`, `ttsOk`): `true` means the fetch
returned an ok response, `false` covers both a non-ok response and a
thrown network error (the source treats both by skipping the item).
The service worker's global `preloadAborted` flag, which an external
`ABORT_PRELOAD` message may set at any moment, is modelled as a function
`aborted : Nat → Bool` read at successive ticks: each read of the flag in
the source consumes one tick, so "the flag is set from tick `k` onward"
is the predicate `fun t => k ≤ t`.
-/

/-- JavaScript `Math.round`: round half toward positive infinity. -/
def jsRound (q : ℚ) : ℤ := (q + 1/2).floor

/-- `text.trim().replace(/\s+/g, ' ')`: collapse whitespace runs to single
spaces and drop leading/trailing whitespace. -/
def normalizeName (s : String) : String :=
  String.intercalate " " ((s.split Char.isWhitespace).filter (· ≠ ""))

/-- Insertion into a JS `Set`/`Map` keyed by the element itself: append the
element unless it is already present (JS sets preserve insertion order). -/
def addUnique (l : List String) (x : String) : List String :=
  if x ∈ l then l else l ++ [x]

namespace SW

/-- The JSON completion marker stored under the `'preload-status'` key of
the `viltrum-preload-v7.1.0` cache. -/
structure CompletionMarker where
  email : String
  completedAt : ℤ
  imagesLoaded : ℕ
  audioLoaded : ℕ
deriving DecidableEq, Repr

/-- Milliseconds per day, the divisor `1000 * 60 * 60 * 24` in
`checkPreloadStatus`. -/
def msPerDay : ℤ := 1000 * 60 * 60 * 24

/-- Result of `checkPreloadStatus`. -/
inductive StatusResult where
  | complete (email : String) (completedAt : ℤ) (imagesLoaded audioLoaded : ℕ)
      (ageInDays : ℚ)
  | notComplete (reason : String)
deriving DecidableEq, Repr

/-- Whether a `StatusResult` has `complete: true`. -/
def StatusResult.isComplete : StatusResult → Bool
  | .complete _ _ _ _ _ => true
  | .notComplete _ => false

/-- `checkPreloadStatus(email)` from `google-apps-script-v7.gs`
(lines 1107–1140): consult the stored marker; report `no_status` when the
marker is absent, `different_user` when its email differs from the
requesting user, `cache_expired` when its age exceeds 7 days, and
complete otherwise. -/
def checkPreloadStatus (marker : Option CompletionMarker) (email : String)
    (now : ℤ) : StatusResult :=
  match marker with
  | none => .notComplete "no_status"
  | some status =>
    if status.email ≠ email then
      .notComplete "different_user"
    else
      let ageInDays : ℚ := ((now - status.completedAt : ℤ) : ℚ) / (msPerDay : ℚ)
      if ageInDays > 7 then
        .notComplete "cache_expired"
      else
        .complete status.email status.completedAt status.imagesLoaded
          status.audioLoaded ageInDays

/-- One `PRELOAD_PROGRESS` message posted to all clients by
`broadcastProgress`. -/
structure Broadcast where
  phase : String
  current : ℕ
  total : ℕ
  percent : ℤ
deriving DecidableEq, Repr

/-- Terminal messages `handleBackgroundPreload` may post to clients. -/
inductive SWMessage where
  | alreadyComplete (status : StatusResult)
  | complete (email : String) (imagesLoaded audioLoaded : ℕ)
  | error (msg : String)
deriving DecidableEq, Repr

/-- The worker state: the re-entrancy flag and the contents of the preload
cache (resource keys plus the completion marker). -/
structure SWState where
  preloadInProgress : Bool
  cache : List String
  marker : Option CompletionMarker
deriving Repr

/-- Payload of a `START_PRELOAD` message; `imageUrls`/`audioTexts`/`ttsUrl`
may be missing, and an empty `email` is falsy. -/
structure PreloadData where
  email : String
  imageUrls : Option (List String)
  audioTexts : Option (List String)
  ttsUrl : Option String
deriving Repr

/-- Accumulator threaded through the two download loops of
`handleBackgroundPreload`. -/
structure RunAcc where
  cache : List String
  imagesLoaded : ℕ
  imagesSkipped : ℕ
  audioLoaded : ℕ
  audioSkipped : ℕ
  fetched : List String
  broadcasts : List Broadcast
  tick : ℕ
deriving Repr

/-- The image loop of `handleBackgroundPreload` (lines 1201–1231): for each
url, first read the abort flag (one tick) and break when it is set; then
skip the url when already cached, otherwise fetch it and store it on an ok
response; finally broadcast progress every 5 images and on the last one.
`i` is the loop index of the first element of `urls`; `total` is the
length of the full list. -/
def imagesLoop (fetchOk : String → Bool) (aborted : ℕ → Bool) (total : ℕ) :
    List String → ℕ → RunAcc → RunAcc
  | [], _, acc => acc
  | url :: rest, i, acc =>
    if aborted acc.tick then
      { acc with tick := acc.tick + 1 }
    else
      let acc1 := { acc with tick := acc.tick + 1 }
      let acc2 :=
        if url ∈ acc1.cache then
          { acc1 with imagesSkipped := acc1.imagesSkipped + 1 }
        else if fetchOk url then
          { acc1 with cache := url :: acc1.cache,
                      imagesLoaded := acc1.imagesLoaded + 1,
                      fetched := acc1.fetched ++ [url] }
        else
          { acc1 with fetched := acc1.fetched ++ [url] }
      let acc3 :=
        if i % 5 = 0 ∨ i = total - 1 then
          { acc2 with broadcasts := acc2.broadcasts ++
              [⟨"images", i + 1, total,
                jsRound (((i + 1 : ℕ) : ℚ) / (total : ℚ) * 100)⟩] }
        else acc2
      imagesLoop fetchOk aborted total rest (i + 1) acc3

/-- The TTS audio loop of `handleBackgroundPreload` (lines 1236–1273): keys
are `"tts:" ++ text`; the abort flag is read at the top of each iteration;
progress is broadcast every 10 items and on the last one. -/
def audioLoop (ttsOk : String → Bool) (aborted : ℕ → Bool) (total : ℕ) :
    List String → ℕ → RunAcc → RunAcc
  | [], _, acc => acc
  | text :: rest, i, acc =>
    if aborted acc.tick then
      { acc with tick := acc.tick + 1 }
    else
      let acc1 := { acc with tick := acc.tick + 1 }
      let key := "tts:" ++ text
      let acc2 :=
        if key ∈ acc1.cache then
          { acc1 with audioSkipped := acc1.audioSkipped + 1 }
        else if ttsOk text then
          { acc1 with cache := key :: acc1.cache,
                      audioLoaded := acc1.audioLoaded + 1,
                      fetched := acc1.fetched ++ [key] }
        else
          { acc1 with fetched := acc1.fetched ++ [key] }
      let acc3 :=
        if i % 10 = 0 ∨ i = total - 1 then
          { acc2 with broadcasts := acc2.broadcasts ++
              [⟨"audio", i + 1, total,
                jsRound (((i + 1 : ℕ) : ℚ) / (total : ℚ) * 100)⟩] }
        else acc2
      audioLoop ttsOk aborted total rest (i + 1) acc3

/-- Observable outcome of one `handleBackgroundPreload` invocation. -/
structure RunResult where
  preloadInProgress : Bool
  cache : List String
  marker : Option CompletionMarker
  imagesLoaded : ℕ
  imagesSkipped : ℕ
  audioLoaded : ℕ
  audioSkipped : ℕ
  fetched : List String
  broadcasts : List Broadcast
  messages : List SWMessage
deriving Repr

/-- `handleBackgroundPreload(data)` (lines 1144–1318): return immediately
when a preload is already in progress or the payload is invalid; return
with a `PRELOAD_ALREADY_COMPLETE` message when `checkPreloadStatus`
reports complete; otherwise run the image loop, then (if not aborted and a
TTS url is given) the audio loop, and finally — if the abort flag is still
unset — store a completion marker and post `PRELOAD_COMPLETE`.  An abort
only breaks the loops: no terminal message is posted for it. -/
def handleBackgroundPreload (st : SWState) (data : PreloadData)
    (fetchOk ttsOk : String → Bool) (aborted : ℕ → Bool) (now : ℤ) :
    RunResult :=
  if st.preloadInProgress then
    { preloadInProgress := st.preloadInProgress, cache := st.cache,
      marker := st.marker, imagesLoaded := 0, imagesSkipped := 0,
      audioLoaded := 0, audioSkipped := 0, fetched := [], broadcasts := [],
      messages := [] }
  else if data.email = "" ∨ data.imageUrls = none ∨ data.audioTexts = none then
    { preloadInProgress := false, cache := st.cache, marker := st.marker,
      imagesLoaded := 0, imagesSkipped := 0, audioLoaded := 0,
      audioSkipped := 0, fetched := [], broadcasts := [], messages := [] }
  else
    let status := checkPreloadStatus st.marker data.email now
    if status.isComplete then
      { preloadInProgress := false, cache := st.cache, marker := st.marker,
        imagesLoaded := 0, imagesSkipped := 0, audioLoaded := 0,
        audioSkipped := 0, fetched := [], broadcasts := [],
        messages := [.alreadyComplete status] }
    else
      let imageUrls := data.imageUrls.getD []
      let audioTexts := data.audioTexts.getD []
      let acc0 : RunAcc :=
        { cache := st.cache, imagesLoaded := 0, imagesSkipped := 0,
          audioLoaded := 0, audioSkipped := 0, fetched := [],
          broadcasts := [], tick := 0 }
      let accI := imagesLoop fetchOk aborted imageUrls.length imageUrls 0 acc0
      let accA :=
        if ¬ aborted accI.tick ∧ data.ttsUrl ≠ none then
          audioLoop ttsOk aborted audioTexts.length audioTexts 0
            { accI with tick := accI.tick + 1 }
        else
          { accI with tick := accI.tick + 1 }
      if ¬ aborted accA.tick then
        { preloadInProgress := false, cache := accA.cache,
          marker := some
            { email := data.email, completedAt := now,
              imagesLoaded := accA.imagesLoaded + accA.imagesSkipped,
              audioLoaded := accA.audioLoaded + accA.audioSkipped },
          imagesLoaded := accA.imagesLoaded,
          imagesSkipped := accA.imagesSkipped,
          audioLoaded := accA.audioLoaded, audioSkipped := accA.audioSkipped,
          fetched := accA.fetched, broadcasts := accA.broadcasts,
          messages := [.complete data.email
            (accA.imagesLoaded + accA.imagesSkipped)
            (accA.audioLoaded + accA.audioSkipped)] }
      else
        { preloadInProgress := false, cache := accA.cache, marker := st.marker,
          imagesLoaded := accA.imagesLoaded,
          imagesSkipped := accA.imagesSkipped,
          audioLoaded := accA.audioLoaded, audioSkipped := accA.audioSkipped,
          fetched := accA.fetched, broadcasts := accA.broadcasts,
          messages := [] }

end SW

namespace FG

/-- A value stored in a metadata record: the source writes booleans
(`preloadComplete`), integers (`lastUpdate` timestamps) and strings
(`cachedUser`). -/
inductive MetaVal where
  | b (v : Bool)
  | i (v : ℤ)
  | s (v : String)
deriving DecidableEq, Repr

/-- JavaScript truthiness of a stored metadata value. -/
def MetaVal.truthy : MetaVal → Bool
  | .b v => v
  | .i v => v ≠ 0
  | .s v => v ≠ ""

/-- JavaScript numeric coercion of a stored metadata value; `none` stands
for `NaN` (every comparison against it is false). -/
def MetaVal.toNumber : MetaVal → Option ℤ
  | .b v => some (if v then 1 else 0)
  | .i v => some v
  | .s _ => none

/-- A record of the IndexedDB `metadata` store: `{ key, value }`. -/
structure MetaRec where
  key : String
  value : MetaVal
deriving DecidableEq, Repr

/-- `getFromDB(METADATA, key)`. -/
def metaGet (db : List MetaRec) (key : String) : Option MetaRec :=
  db.find? (fun r => r.key = key)

/-- `putInDB(METADATA, { key, value })`: overwrite the record with the same
key, or append a new one. -/
def metaPut (db : List MetaRec) (key : String) (value : MetaVal) :
    List MetaRec :=
  if db.any (fun r => r.key = key) then
    db.map (fun r => if r.key = key then ⟨key, value⟩ else r)
  else
    db ++ [⟨key, value⟩]

/-- The persisted preload state record stored under
`viltrum_preload_state` in localStorage (written by `setPreloadState`,
which always stamps `timestamp`). -/
structure PreloadState where
  status : String
  phase : Option String
  current : Option ℕ
  total : Option ℕ
  percent : Option ℤ
  timestamp : ℤ
deriving DecidableEq, Repr

/-- Result of `OfflinePreloader.needsUpdate`. -/
inductive NUResult where
  | yes (reason : String) (resumeFrom : Option PreloadState)
  | no
deriving DecidableEq, Repr

/-- `OfflinePreloader.needsUpdate(email)` (`src/unnamed/part_001`, lines
134–166).  Checks, in order: an interrupted preload (any persisted state
with `status == 'loading'`, with no staleness test); a changed user
(writing `preloadComplete = false` to the metadata store before
returning); an unset completion flag; and freshness of `lastUpdate`
(under 24 hours).  Returns the decision together with the metadata store
after any write. -/
def needsUpdate (db : List MetaRec) (preloadState : Option PreloadState)
    (email : String) (now : ℤ) : NUResult × List MetaRec :=
  let metadata := metaGet db "lastUpdate"
  let cachedUser := metaGet db "cachedUser"
  let preloadComplete := metaGet db "preloadComplete"
  match preloadState with
  | some ps =>
    if ps.status = "loading" then
      (.yes "interrupted" (some ps), db)
    else
      needsUpdateAfterState db metadata cachedUser preloadComplete email now
  | none =>
      needsUpdateAfterState db metadata cachedUser preloadComplete email now
where
  /-- The checks after the interrupted-preload test. -/
  needsUpdateAfterState (db : List MetaRec)
      (metadata cachedUser preloadComplete : Option MetaRec)
      (email : String) (now : ℤ) : NUResult × List MetaRec :=
    if cachedUser = none ∨ (∀ r, cachedUser = some r → r.value ≠ .s email) then
      (.yes "user_changed" none, metaPut db "preloadComplete" (.b false))
    else if preloadComplete = none ∨
        (∀ r, preloadComplete = some r → r.value ≠ .b true) then
      (.yes "incomplete" none, db)
    else
      match metadata with
      | some r =>
        if r.value.truthy then
          match r.value.toNumber with
          | some v =>
            if ((now - v : ℤ) : ℚ) / (1000 * 60 * 60 : ℚ) < 24 then
              (.no, db)
            else
              (.yes "stale_cache" none, db)
          | none => (.yes "stale_cache" none, db)
        else (.yes "stale_cache" none, db)
      | none => (.yes "stale_cache" none, db)

/-- One exercise of a muscle workout, as read by the resource collector. -/
structure Exercise where
  imageUrl : Option String
  name : Option String
deriving DecidableEq, Repr

/-- A muscle workout: may lack its `exercises` field. -/
structure MuscleWorkout where
  exercises : Option (List Exercise)
deriving DecidableEq, Repr

/-- One line of a run workout. -/
structure RunLine where
  audioKey : Option String
deriving DecidableEq, Repr

/-- A run workout: may lack its `lines` field. -/
structure RunWorkout where
  lines : Option (List RunLine)
deriving DecidableEq, Repr

/-- A workout reference inside a plan: `{ type, name }`. -/
structure WorkoutRef where
  type : String
  name : String
deriving DecidableEq, Repr

/-- A plan: may lack its `workouts` field. -/
structure Plan where
  workouts : Option (List WorkoutRef)
deriving DecidableEq, Repr

/-- The slice of `userInfo` that `collectResourcesFromPlans` reads; object
maps are association lists. -/
structure UserInfo where
  email : String
  plans : List String
  allPlansData : List (String × Plan)
  allWorkoutsData : List (String × MuscleWorkout)
  runWorkouts : List (String × RunWorkout)
deriving Repr

/-- Association-list lookup standing for `obj[name]`. -/
def lookupAL {α : Type} (m : List (String × α)) (k : String) : Option α :=
  (m.find? (fun p => p.1 = k)).map (·.2)

/-- The fixed always-needed UI images added first by
`collectResourcesFromPlans`. -/
def commonImages : List String :=
  [ "https://lh3.googleusercontent.com/d/1va6OkGp9yAHDJBfeDM3npwqlJJoLUh5C"
  , "https://lh3.googleusercontent.com/d/1Ee4DY-EGnTI9YPrIB0wj6v8pX7KW8Hpt"
  , "https://lh3.googleusercontent.com/d/1FS2HKfaJ6MIfpyzJirU6dWQ7K-5kbC9j"
  , "https://lh3.googleusercontent.com/d/1bibXbdrcXdh3vgNHp2Teby3ClS3VqZmb"
  , "https://lh3.googleusercontent.com/d/1Vs1-VgiJi8rTbssSj-2ThcyDraRoTE2g" ]

/-- The fixed common workout narration cues appended at the end. -/
def commonCues : List String :=
  [ "Mancano 60 secondi", "Mancano 30 secondi", "Mancano 10 secondi"
  , "5", "4", "3", "2", "1", "Prossimo esercizio", "Ottimo lavoro" ]

/-- Accumulated `(imageUrls, audioTexts)` sets (insertion-ordered,
duplicate-free lists). -/
structure Collected where
  imageUrls : List String
  audioTexts : List String
deriving DecidableEq, Repr

/-- Processing of one exercise of a muscle workout: add a truthy
`imageUrl` to the image set and the normalized truthy `name` to the audio
map. -/
def collectExercise (acc : Collected) (ex : Exercise) : Collected :=
  let acc1 :=
    match ex.imageUrl with
    | some u => if u ≠ "" then { acc with imageUrls := addUnique acc.imageUrls u } else acc
    | none => acc
  match ex.name with
  | some n =>
      if n ≠ "" then
        { acc1 with audioTexts := addUnique acc1.audioTexts (normalizeName n) }
      else acc1
  | none => acc1

/-- Processing of one line of a run workout: add a truthy `audioKey`. -/
def collectRunLine (acc : Collected) (line : RunLine) : Collected :=
  match line.audioKey with
  | some k => if k ≠ "" then { acc with audioTexts := addUnique acc.audioTexts k } else acc
  | none => acc

/-- Processing of one workout reference of a plan. -/
def collectWorkout (userInfo : UserInfo) (acc : Collected)
    (w : WorkoutRef) : Collected :=
  if w.type = "muscle" then
    match lookupAL userInfo.allWorkoutsData w.name with
    | some wd =>
      match wd.exercises with
      | some exs => exs.foldl collectExercise acc
      | none => acc
    | none => acc
  else if w.type = "run" then
    match lookupAL userInfo.runWorkouts w.name with
    | some rd =>
      match rd.lines with
      | some lines => lines.foldl collectRunLine acc
      | none => acc
    | none => acc
  else acc

/-- Processing of one named plan of the user. -/
def collectPlan (userInfo : UserInfo) (acc : Collected)
    (planName : String) : Collected :=
  match lookupAL userInfo.allPlansData planName with
  | some plan =>
    match plan.workouts with
    | some ws => ws.foldl (collectWorkout userInfo) acc
    | none => acc
  | none => acc

/-- `OfflinePreloader.collectResourcesFromPlans(userInfo)`
(`src/unnamed/part_001`, lines 172–236): seed the image set with the five
common UI images, walk every plan's workouts collecting exercise image
urls and normalized exercise names (muscle) or audio keys (run), then add
the fixed narration cues; return both insertion-ordered sets as arrays. -/
def collectResourcesFromPlans (userInfo : UserInfo) : Collected :=
  let acc0 : Collected :=
    { imageUrls := commonImages, audioTexts := [] }
  let acc1 := userInfo.plans.foldl (collectPlan userInfo) acc0
  { acc1 with audioTexts := commonCues.foldl addUnique acc1.audioTexts }

end FG

namespace FG

/-- Observable side effects of the page-context preloader: IndexedDB
writes, preload-state writes (`setPreloadState` / `clearPreloadState`),
window events, service-worker messages, localStorage writes and network
fetches. -/
inductive FgEffect where
  | dbPut (store key : String)
  | setState (status : String) (phase : Option String)
  | clearState
  | event (name : String)
  | swPost (msgType : String)
  | lsPut (key : String)
  | netFetch (what : String)
deriving DecidableEq, Repr

/-- Output of one fallback download loop: the updated blob store, the
progress broadcasts emitted, and the effect trace in program order. -/
structure FgLoopOut where
  store : List String
  broadcasts : List SW.Broadcast
  effects : List FgEffect
deriving Repr

/-- Effects of one `broadcastProgress` call: `setPreloadState` (status
`loading`) followed by a `preloadProgress` event. -/
def broadcastEffects (phase : String) : List FgEffect :=
  [.setState "loading" (some phase), .event "preloadProgress"]

/-- `OfflinePreloader.preloadImages(imageUrls, startIndex)`
(`src/unnamed/part_001`, lines 242–289): for each url from `startIndex`,
serve from the images store when a cached blob exists (broadcasting
progress), otherwise fetch, store the blob and broadcast; a thrown fetch
is skipped with no broadcast for that item.  `i` is the index of the
first element of `urls`, `total` the full list length. -/
def fgPreloadImages (fetchOk : String → Bool) :
    List String → ℕ → ℕ → FgLoopOut → FgLoopOut
  | [], _, _, acc => acc
  | url :: rest, i, total, acc =>
    let b : SW.Broadcast :=
      ⟨"images", i + 1, total, jsRound (((i + 1 : ℕ) : ℚ) / (total : ℚ) * 100)⟩
    let acc1 :=
      if url ∈ acc.store then
        { acc with broadcasts := acc.broadcasts ++ [b],
                   effects := acc.effects ++ broadcastEffects "images" }
      else if fetchOk url then
        { acc with store := url :: acc.store,
                   broadcasts := acc.broadcasts ++ [b],
                   effects := acc.effects ++
                     [.netFetch url, .dbPut "images" url] ++
                     broadcastEffects "images" }
      else
        { acc with effects := acc.effects ++ [.netFetch url] }
    fgPreloadImages fetchOk rest (i + 1) total acc1

/-- `OfflinePreloader.preloadTTSAudio(audioTexts, startIndex)`
(`src/unnamed/part_001`, lines 295–350): keys are `"tts_" ++ text`; a
cached blob is served with a broadcast; otherwise the TTS endpoint is
called (`ttsRes text`: `none` = thrown, `some ok` = response with that
`ok` flag); an ok response is stored; the broadcast is emitted whether or
not the response was ok, but not after a throw. -/
def fgPreloadTTSAudio (ttsRes : String → Option Bool) :
    List String → ℕ → ℕ → FgLoopOut → FgLoopOut
  | [], _, _, acc => acc
  | text :: rest, i, total, acc =>
    let key := "tts_" ++ text
    let b : SW.Broadcast :=
      ⟨"audio", i + 1, total, jsRound (((i + 1 : ℕ) : ℚ) / (total : ℚ) * 100)⟩
    let acc1 :=
      if key ∈ acc.store then
        { acc with broadcasts := acc.broadcasts ++ [b],
                   effects := acc.effects ++ broadcastEffects "audio" }
      else
        match ttsRes text with
        | none => { acc with effects := acc.effects ++ [.netFetch key] }
        | some ok =>
          if ok then
            { acc with store := key :: acc.store,
                       broadcasts := acc.broadcasts ++ [b],
                       effects := acc.effects ++
                         [.netFetch key, .dbPut "audio" key] ++
                         broadcastEffects "audio" }
          else
            { acc with broadcasts := acc.broadcasts ++ [b],
                       effects := acc.effects ++ [.netFetch key] ++
                         broadcastEffects "audio" }
    fgPreloadTTSAudio ttsRes rest (i + 1) total acc1

/-- Options object of `preloadAll`. -/
structure FgOptions where
  forceUpdate : Bool
  scriptUrl : Option String
deriving Repr

/-- Environment of one `preloadAll` run: availability and answer of the
service worker, the stores read, and the network oracles. -/
structure FgEnv where
  swAvailable : Bool
  swComplete : Bool
  db : List MetaRec
  preloadState : Option PreloadState
  imageStore : List String
  audioStore : List String
  nutritionCached : Bool
  nutritionPdfUrl : Option String
  fetchOk : String → Bool
  ttsRes : String → Option Bool
  progressFetchOk : Bool
  progressPlans : List String
  now : ℤ

/-- Return value of `preloadAll`. -/
inductive FgResult where
  | skipped
  | cachedFromSW
  | cachedLocal
  | delegatedToSW (images audio : ℕ)
  | completed (images audio : ℕ)
deriving DecidableEq, Repr

/-- Effects of `preloadUserProgress(email, scriptUrl)`
(`src/unnamed/part_001`, lines 396–420): one fetch; on success a
`userProgress` record plus one localStorage entry per plan. -/
def progressEffects (env : FgEnv) (email : String) : List FgEffect :=
  [.netFetch "progress"] ++
    (if env.progressFetchOk then
      [.dbPut "userProgress" email] ++
        env.progressPlans.map (fun p => .lsPut ("viltrum_plan_progress_" ++ p))
    else [])

/-- Effects of `ensureUserDataCached(userInfo, options)`
(`src/unnamed/part_001`, lines 644–666). -/
def ensureUserDataCachedEffects (env : FgEnv) (opts : FgOptions)
    (email : String) : List FgEffect :=
  [.dbPut "workoutData" "current_user", .dbPut "plansData" "plans",
   .dbPut "metadata" "lastUpdate", .dbPut "metadata" "cachedUser",
   .dbPut "metadata" "preloadComplete"] ++
    (match opts.scriptUrl with
     | some _ => progressEffects env email
     | none => [])

/-- Effects of `preloadNutrition(nutritionPdfUrl, email)`
(`src/unnamed/part_001`, lines 356–390). -/
def nutritionEffects (env : FgEnv) (email : String) : List FgEffect :=
  match env.nutritionPdfUrl with
  | none => []
  | some _ =>
    if env.nutritionCached then []
    else
      broadcastEffects "nutrition" ++ [.netFetch "nutrition"] ++
        (if env.fetchOk "nutrition" then
          [.dbPut "nutrition" email] ++ broadcastEffects "nutrition"
        else [])

/-- `OfflinePreloader.preloadAll(userInfo, options)`
(`src/unnamed/part_001`, lines 426–586), as the pair of its return value
and its effect trace.  A call while `isPreloading` returns the skipped
result immediately with no effects.  Otherwise: the service-worker cache
is consulted first; the IndexedDB freshness check (`needsUpdate`) may
short-circuit; and the body either delegates the downloads to the service
worker or runs the fallback loops in the page. -/
def preloadAll (isPreloading : Bool) (userInfo : UserInfo) (opts : FgOptions)
    (env : FgEnv) : FgResult × List FgEffect :=
  if isPreloading then
    (.skipped, [])
  else if env.swAvailable ∧ env.swComplete ∧ ¬ opts.forceUpdate then
    (.cachedFromSW,
      [.swPost "CHECK_PRELOAD_STATUS"] ++
        ensureUserDataCachedEffects env opts userInfo.email ++
        [.event "preloadProgress", .event "preloadComplete"])
  else
    let swCheckEffects : List FgEffect :=
      if env.swAvailable then [.swPost "CHECK_PRELOAD_STATUS"] else []
    let nu := needsUpdate env.db env.preloadState userInfo.email env.now
    let nuEffects : List FgEffect :=
      if nu.1 = .yes "user_changed" none then
        [.dbPut "metadata" "preloadComplete"]
      else []
    if nu.1 = .no ∧ ¬ opts.forceUpdate then
      (.cachedLocal, swCheckEffects ++ nuEffects ++ [.clearState])
    else
      let collected := collectResourcesFromPlans userInfo
      let prefixEffects : List FgEffect :=
        swCheckEffects ++ nuEffects ++
          [.dbPut "metadata" "preloadComplete",
           .setState "loading" (some "init"),
           .dbPut "workoutData" "current_user",
           .dbPut "plansData" "plans"]
      if env.swAvailable then
        (.delegatedToSW collected.imageUrls.length collected.audioTexts.length,
          prefixEffects ++ [.swPost "START_PRELOAD"] ++
            (match opts.scriptUrl with
             | some _ => progressEffects env userInfo.email
             | none => []) ++
            [.dbPut "metadata" "lastUpdate", .dbPut "metadata" "cachedUser",
             .dbPut "metadata" "preloadComplete"])
      else
        let imgOut := fgPreloadImages env.fetchOk collected.imageUrls 0
          collected.imageUrls.length
          { store := env.imageStore, broadcasts := [], effects := [] }
        let audOut := fgPreloadTTSAudio env.ttsRes collected.audioTexts 0
          collected.audioTexts.length
          { store := env.audioStore, broadcasts := [], effects := [] }
        (.completed collected.imageUrls.length collected.audioTexts.length,
          prefixEffects ++
            [.setState "loading" (some "images")] ++ imgOut.effects ++
            [.setState "loading" (some "audio")] ++ audOut.effects ++
            (match env.nutritionPdfUrl with
             | some _ => [.setState "loading" (some "nutrition")] ++
                 nutritionEffects env userInfo.email
             | none => []) ++
            (match opts.scriptUrl with
             | some _ => progressEffects env userInfo.email
             | none => []) ++
            [.dbPut "metadata" "lastUpdate", .dbPut "metadata" "cachedUser",
             .dbPut "metadata" "preloadComplete",
             .setState "complete" none, .clearState,
             .event "preloadProgress", .event "preloadComplete"])

end FG

namespace Bar

/-- Action taken by `GlobalPreloadBar.checkInitialState`
(`src/unnamed/part_000`, lines 240–266) on the stored preload state. -/
inductive CIAction where
  | display (s : FG.PreloadState)
  | hide
  | clearState
  | noop
deriving DecidableEq, Repr

/-- `GlobalPreloadBar.checkInitialState`: read the stored state; a
`loading` state younger than 30 seconds is displayed as active progress;
a `complete` state hides the bar; a `loading` state older than 30 seconds
is treated as a crashed preload and removed from storage. -/
def checkInitialState (stored : Option FG.PreloadState) (now : ℤ) :
    CIAction :=
  match stored with
  | none => .noop
  | some state =>
    let stateAge := now - state.timestamp
    let isStale := stateAge > 30000
    if state.status = "loading" ∧ ¬ isStale then
      .display state
    else if state.status = "complete" then
      .hide
    else if isStale ∧ state.status = "loading" then
      .clearState
    else
      .noop

end Bar

namespace SC

/-- The sessionStorage slice read by `getUserData`: the cached payload
(under `viltrum_session_data`) and its write timestamp (under
`viltrum_session_timestamp`). -/
structure SessStore where
  data : Option String
  timestamp : Option ℤ
deriving DecidableEq, Repr

/-- Outcome of the network fetch of the remote payload: an ok response
with a body, a non-ok HTTP status, or a thrown network error. -/
inductive FetchRes where
  | ok (payload : String)
  | httpError (code : ℕ)
  | netFail
deriving DecidableEq, Repr

/-- The cache freshness window: `5 * 60 * 1000` milliseconds. -/
def CACHE_DURATION : ℤ := 5 * 60 * 1000

/-- Outcome of one `getUserData` call: the value returned or the error
propagated, the sessionStorage afterwards, and whether a network fetch
was performed. -/
structure GUDOut where
  result : Except String String
  store : SessStore
  fetched : Bool
deriving Repr

/-- `SessionCache.getUserData(forceRefresh)` (`src/js/session-cache.js`,
lines 17–68): serve the session copy when `forceRefresh` is false and its
age is under `CACHE_DURATION`; otherwise fetch, caching an ok payload; on
a non-ok status or a thrown fetch, fall back to the cached copy when one
exists, else propagate the failure. -/
def getUserData (store : SessStore) (forceRefresh : Bool) (now : ℤ)
    (fetch : FetchRes) : GUDOut :=
  let fresh : Bool :=
    !forceRefresh &&
      match store.data, store.timestamp with
      | some _, some t => decide (now - t < CACHE_DURATION)
      | _, _ => false
  if fresh then
    { result := .ok (store.data.getD ""), store := store, fetched := false }
  else
    match fetch with
    | .ok payload =>
      { result := .ok payload,
        store := { data := some payload, timestamp := some now },
        fetched := true }
    | .httpError code =>
      match store.data with
      | some d => { result := .ok d, store := store, fetched := true }
      | none =>
        { result := .error ("HTTP " ++ toString code), store := store,
          fetched := true }
    | .netFail =>
      match store.data with
      | some d => { result := .ok d, store := store, fetched := true }
      | none => { result := .error "network", store := store, fetched := true }

end SC

namespace DP

/-- One phase of a run workout as read by `_expandPhases`: `loopGroup`
and `loopCount` may be absent; `label` stands for the rest of the phase
object (carried through by the `...lp` spread). -/
structure RunPhase where
  loopGroup : Option String
  loopCount : Option ℕ
  label : String
deriving DecidableEq, Repr

/-- One expanded phase: the original phase plus the `_loopRep`,
`_loopTotal` and `_loopSize` annotations. -/
structure ExpandedPhase where
  phase : RunPhase
  loopRep : Option ℕ
  loopTotal : Option ℕ
  loopSize : Option ℕ
deriving DecidableEq, Repr

/-- `phase.loopCount || 1`: a missing (or zero, hence falsy) count
defaults to 1. -/
def jsLoopCount : Option ℕ → ℕ
  | none => 1
  | some c => if c = 0 then 1 else c

/-- Whether `phase.loopGroup` is truthy and equal to the group `g` opened
by the first phase of a run (`phases[i].loopGroup === loopGroup`). -/
def inGroup (g : String) (q : RunPhase) : Bool :=
  q.loopGroup = some g

/-- The block built for one collected loop run: the run replicated
`cnt` times with rep/total/size annotations (`rep` counts from 1). -/
def expandRun (run : List RunPhase) (cnt : ℕ) : List ExpandedPhase :=
  (List.range cnt).flatMap (fun rep =>
    run.map (fun lp => ⟨lp, some (rep + 1), some cnt, some run.length⟩))

/-- `DataPreloader._expandPhases(phases)` (`src/js/data-preloader.js`,
lines 315–351): walk the list; a phase with a truthy `loopGroup` opens a
run collecting every immediately following phase with the same group,
which is replicated `loopCount || 1` times (count taken from the first
phase of the run); a phase with no (or falsy) `loopGroup` is emitted once
with null annotations. -/
def expandPhases : List RunPhase → List ExpandedPhase
  | [] => []
  | p :: rest =>
    match p.loopGroup with
    | none => ⟨p, none, none, none⟩ :: expandPhases rest
    | some g =>
      if g = "" then
        ⟨p, none, none, none⟩ :: expandPhases rest
      else
        let run := p :: rest.takeWhile (inGroup g)
        let rest1 := rest.dropWhile (inGroup g)
        expandRun run (jsLoopCount p.loopCount) ++ expandPhases rest1
  termination_by l => l.length
  decreasing_by
    all_goals simp only [List.length_cons]
    all_goals
      first
      | omega
      | (have h : (rest.dropWhile (inGroup g)).length ≤ rest.length :=
           (List.dropWhile_suffix (inGroup g)).sublist.length_le
         omega)

/-- A run workout record as read by `getRunWorkoutExpanded`: the
`phases` field may be absent. -/
structure RunWorkoutData where
  phases : Option (List RunPhase)
deriving DecidableEq, Repr

/-- Result of `getRunWorkoutExpanded`: the workout together with its
expanded phase list and that list's length. -/
structure ExpandedWorkout where
  base : RunWorkoutData
  expandedPhases : List ExpandedPhase
  totalExpandedPhases : ℕ
deriving DecidableEq, Repr

/-- `DataPreloader.getRunWorkoutExpanded(name)` (`src/js/data-preloader.js`,
lines 299–310): `null` when the named run workout is absent from the
cache or has no `phases` field; otherwise the workout with
`expandedPhases` and `totalExpandedPhases`. -/
def getRunWorkoutExpanded (cache : List (String × RunWorkoutData))
    (name : String) : Option ExpandedWorkout :=
  match FG.lookupAL cache name with
  | none => none
  | some w =>
    match w.phases with
    | none => none
    | some ps =>
      let expanded := expandPhases ps
      some ⟨w, expanded, expanded.length⟩

end DP

/-! ### Helper lemmas -/

/-- A fold step that preserves a property preserves it over the whole
fold. -/
theorem foldl_preserve {α β : Type} (P : α → Prop) (f : α → β → α)
    (h : ∀ a b, P a → P (f a b)) :
    ∀ (l : List β) (a : α), P a → P (l.foldl f a) := by
  intro l
  induction l with
  | nil => intro a ha; exact ha
  | cons x xs ih => intro a ha; exact ih (f a x) (h a x ha)

theorem mem_addUnique_of_mem {l : List String} {x y : String}
    (h : x ∈ l) : x ∈ addUnique l y := by
  unfold addUnique
  split
  · exact h
  · exact List.mem_append_left _ h

theorem mem_addUnique_self (l : List String) (x : String) :
    x ∈ addUnique l x := by
  unfold addUnique
  split
  · assumption
  · exact List.mem_append_right _ (List.mem_singleton.mpr rfl)

theorem addUnique_nodup {l : List String} (h : l.Nodup) (x : String) :
    (addUnique l x).Nodup := by
  unfold addUnique
  split
  · exact h
  · next hx =>
    simpa [List.nodup_append] using ⟨h, fun hmem => hx hmem⟩

/-- Conversion between the millisecond age bound and the
`ageInDays > 7` test of `checkPreloadStatus`. -/
theorem age_div_gt_seven_iff (a b : ℤ) :
    ((7 : ℚ) < ((a : ℚ) - (b : ℚ)) / (SW.msPerDay : ℚ)) ↔ 7 * SW.msPerDay < a - b := by
  have hM : (0 : ℚ) < ((SW.msPerDay : ℤ) : ℚ) := by norm_num [SW.msPerDay]
  rw [lt_div_iff₀ hM]
  constructor
  · intro h; exact_mod_cast h
  · intro h; exact_mod_cast h

/-- A marker for the same user within the 7-day window makes
`checkPreloadStatus` report complete. -/
theorem checkPreloadStatus_fresh (marker : SW.CompletionMarker)
    (email : String) (now : ℤ) (hemail : marker.email = email)
    (hage : now - marker.completedAt ≤ 7 * SW.msPerDay) :
    (SW.checkPreloadStatus (some marker) email now).isComplete = true := by
  have hnot : ¬ ((7 : ℚ) < (((now : ℚ) - (marker.completedAt : ℚ))) / (SW.msPerDay : ℚ)) := by
    rw [age_div_gt_seven_iff]
    omega
  simp [SW.checkPreloadStatus, hemail, SW.StatusResult.isComplete, hnot]

/-- A marker for the same user older than 7 days makes
`checkPreloadStatus` report `cache_expired`. -/
theorem checkPreloadStatus_expired (marker : SW.CompletionMarker)
    (email : String) (now : ℤ) (hemail : marker.email = email)
    (hage : 7 * SW.msPerDay < now - marker.completedAt) :
    SW.checkPreloadStatus (some marker) email now =
      .notComplete "cache_expired" := by
  have hgt : (7 : ℚ) < (((now : ℚ) - (marker.completedAt : ℚ))) / (SW.msPerDay : ℚ) :=
    (age_div_gt_seven_iff _ _).mpr hage
  simp [SW.checkPreloadStatus, hemail, hgt]

/-- When the status check does not report complete, the stored marker does
not influence the downloads, broadcasts or messages of
`handleBackgroundPreload`: the run proceeds exactly as with no marker. -/
theorem hbp_marker_irrelevant (st : SW.SWState) (data : SW.PreloadData)
    (fetchOk ttsOk : String → Bool) (aborted : ℕ → Bool) (now : ℤ)
    (hnc : (SW.checkPreloadStatus st.marker data.email now).isComplete = false) :
    (SW.handleBackgroundPreload st data fetchOk ttsOk aborted now).fetched =
      (SW.handleBackgroundPreload { st with marker := none } data fetchOk ttsOk aborted now).fetched ∧
    (SW.handleBackgroundPreload st data fetchOk ttsOk aborted now).broadcasts =
      (SW.handleBackgroundPreload { st with marker := none } data fetchOk ttsOk aborted now).broadcasts ∧
    (SW.handleBackgroundPreload st data fetchOk ttsOk aborted now).messages =
      (SW.handleBackgroundPreload { st with marker := none } data fetchOk ttsOk aborted now).messages := by
  have hnc0 : (SW.checkPreloadStatus none data.email now).isComplete = false := rfl
  unfold SW.handleBackgroundPreload
  simp only [hnc, hnc0, Bool.false_eq_true, if_false]
  refine ⟨?_, ?_, ?_⟩ <;> (repeat' split) <;> simp_all

/-- When the status check reports complete, `handleBackgroundPreload`
returns immediately with only the `PRELOAD_ALREADY_COMPLETE` message. -/
theorem hbp_skips_when_complete (st : SW.SWState) (data : SW.PreloadData)
    (fetchOk ttsOk : String → Bool) (aborted : ℕ → Bool) (now : ℤ)
    (h0 : st.preloadInProgress = false)
    (hval : ¬ (data.email = "" ∨ data.imageUrls = none ∨ data.audioTexts = none))
    (hc : (SW.checkPreloadStatus st.marker data.email now).isComplete = true) :
    SW.handleBackgroundPreload st data fetchOk ttsOk aborted now =
      { preloadInProgress := false, cache := st.cache, marker := st.marker,
        imagesLoaded := 0, imagesSkipped := 0, audioLoaded := 0,
        audioSkipped := 0, fetched := [], broadcasts := [],
        messages := [.alreadyComplete
          (SW.checkPreloadStatus st.marker data.email now)] } := by
  unfold SW.handleBackgroundPreload
  rw [h0]
  simp [hval, hc]

/-- C1: for the background orchestrator's completion-marker check, a
stored marker with the requesting user's email strictly younger than 7
days makes the status check report already-complete and the preload cycle
skip all downloading (no fetches, no progress broadcasts, a
`PRELOAD_ALREADY_COMPLETE` message); a marker older than 7 days (e.g.
7 days 1 hour) makes the check report not-complete (`cache_expired`) and
the preload proceed exactly as with no marker at all. -/
theorem freshness_window_controls_skip
    (marker : SW.CompletionMarker) (email : String) (now : ℤ)
    (st : SW.SWState) (data : SW.PreloadData)
    (fetchOk ttsOk : String → Bool) (aborted : ℕ → Bool)
    (hemail : marker.email = email)
    (hst : st.preloadInProgress = false) (hm : st.marker = some marker)
    (hdata : data.email = email) (hne : email ≠ "")
    (himg : data.imageUrls ≠ none) (haud : data.audioTexts ≠ none) :
    (now - marker.completedAt < 7 * SW.msPerDay →
      (SW.checkPreloadStatus (some marker) email now).isComplete = true ∧
      (SW.handleBackgroundPreload st data fetchOk ttsOk aborted now).fetched = [] ∧
      (SW.handleBackgroundPreload st data fetchOk ttsOk aborted now).broadcasts = [] ∧
      (SW.handleBackgroundPreload st data fetchOk ttsOk aborted now).messages =
        [.alreadyComplete (SW.checkPreloadStatus (some marker) email now)]) ∧
    (7 * SW.msPerDay < now - marker.completedAt →
      SW.checkPreloadStatus (some marker) email now = .notComplete "cache_expired" ∧
      (SW.handleBackgroundPreload st data fetchOk ttsOk aborted now).fetched =
        (SW.handleBackgroundPreload { st with marker := none } data fetchOk ttsOk aborted now).fetched ∧
      (SW.handleBackgroundPreload st data fetchOk ttsOk aborted now).broadcasts =
        (SW.handleBackgroundPreload { st with marker := none } data fetchOk ttsOk aborted now).broadcasts ∧
      (SW.handleBackgroundPreload st data fetchOk ttsOk aborted now).messages =
        (SW.handleBackgroundPreload { st with marker := none } data fetchOk ttsOk aborted now).messages) := by
  constructor
  · intro hlt
    have hc : (SW.checkPreloadStatus (some marker) email now).isComplete = true :=
      checkPreloadStatus_fresh marker email now hemail (le_of_lt hlt)
    have hval : ¬ (data.email = "" ∨ data.imageUrls = none ∨ data.audioTexts = none) := by
      simp [hdata, hne, himg, haud]
    have heq := hbp_skips_when_complete st data fetchOk ttsOk aborted now hst hval
      (by rw [hm, hdata]; exact hc)
    rw [heq]
    refine ⟨hc, rfl, rfl, ?_⟩
    rw [hm, hdata]
  · intro hgt
    have hc : SW.checkPreloadStatus (some marker) email now = .notComplete "cache_expired" :=
      checkPreloadStatus_expired marker email now hemail hgt
    have hnc : (SW.checkPreloadStatus st.marker data.email now).isComplete = false := by
      rw [hm, hdata, hc]; rfl
    exact ⟨hc, hbp_marker_irrelevant st data fetchOk ttsOk aborted now hnc⟩

/-- Witness for `freshness_window_controls_skip`: a marker completed 6 days
23 hours before `now` reports complete; one completed 7 days 1 hour before
`now` reports `cache_expired`. -/
theorem freshness_window_controls_skip_witness :
    (SW.checkPreloadStatus (some ⟨"u", 0, 1, 2⟩) "u" 601200000).isComplete = true ∧
    SW.checkPreloadStatus (some ⟨"u", 0, 1, 2⟩) "u" 608400000 =
      .notComplete "cache_expired" :=
  ⟨((freshness_window_controls_skip ⟨"u", 0, 1, 2⟩ "u" 601200000
      ⟨false, [], some ⟨"u", 0, 1, 2⟩⟩ ⟨"u", some [], some [], none⟩
      (fun _ => true) (fun _ => true) (fun _ => false)
      rfl rfl rfl rfl (by decide) (by decide) (by decide)).1 (by decide)).1,
   ((freshness_window_controls_skip ⟨"u", 0, 1, 2⟩ "u" 608400000
      ⟨false, [], some ⟨"u", 0, 1, 2⟩⟩ ⟨"u", some [], some [], none⟩
      (fun _ => true) (fun _ => true) (fun _ => false)
      rfl rfl rfl rfl (by decide) (by decide) (by decide)).2 (by decide)).1⟩

/-- C3: a start request issued while a preload cycle is already running is
a no-op that returns immediately: the service-worker handler leaves the
cache and completion marker untouched, performs no fetches, broadcasts no
progress and posts no message (so the in-flight cycle's counters are
unaffected), and the page-context `preloadAll` returns the
skipped result with an empty effect trace. -/
theorem second_start_is_noop
    (st : SW.SWState) (data : SW.PreloadData) (fetchOk ttsOk : String → Bool)
    (aborted : ℕ → Bool) (now : ℤ)
    (userInfo : FG.UserInfo) (opts : FG.FgOptions) (env : FG.FgEnv)
    (h : st.preloadInProgress = true) :
    SW.handleBackgroundPreload st data fetchOk ttsOk aborted now =
      { preloadInProgress := true, cache := st.cache, marker := st.marker,
        imagesLoaded := 0, imagesSkipped := 0, audioLoaded := 0,
        audioSkipped := 0, fetched := [], broadcasts := [], messages := [] } ∧
    FG.preloadAll true userInfo opts env = (.skipped, []) := by
  constructor
  · unfold SW.handleBackgroundPreload
    simp [h]
  · rfl

/-- Witness for `second_start_is_noop` at a concrete in-progress state. -/
theorem second_start_is_noop_witness :
    SW.handleBackgroundPreload ⟨true, ["x"], none⟩
        ⟨"u", some ["i"], some ["t"], none⟩
        (fun _ => true) (fun _ => true) (fun _ => false) 0 =
      { preloadInProgress := true, cache := ["x"], marker := none,
        imagesLoaded := 0, imagesSkipped := 0, audioLoaded := 0,
        audioSkipped := 0, fetched := [], broadcasts := [], messages := [] } ∧
    FG.preloadAll true
        ⟨"u", [], [], [], []⟩ ⟨false, none⟩
        ⟨false, false, [], none, [], [], false, none, fun _ => false,
         fun _ => none, false, [], 0⟩ = (.skipped, []) :=
  second_start_is_noop ⟨true, ["x"], none⟩ ⟨"u", some ["i"], some ["t"], none⟩
    (fun _ => true) (fun _ => true) (fun _ => false) 0
    ⟨"u", [], [], [], []⟩ ⟨false, none⟩
    ⟨false, false, [], none, [], [], false, none, fun _ => false,
     fun _ => none, false, [], 0⟩ rfl

/-- Reduction of `needsUpdate` on an absent persisted state. -/
theorem needsUpdate_none_eq (db : List FG.MetaRec) (email : String) (now : ℤ) :
    FG.needsUpdate db none email now =
      FG.needsUpdate.needsUpdateAfterState db (FG.metaGet db "lastUpdate")
        (FG.metaGet db "cachedUser") (FG.metaGet db "preloadComplete")
        email now := rfl

/-- Reduction of `needsUpdate` on a present persisted state. -/
theorem needsUpdate_some_eq (db : List FG.MetaRec) (s : FG.PreloadState)
    (email : String) (now : ℤ) :
    FG.needsUpdate db (some s) email now =
      (if s.status = "loading" then (.yes "interrupted" (some s), db)
       else FG.needsUpdate.needsUpdateAfterState db (FG.metaGet db "lastUpdate")
         (FG.metaGet db "cachedUser") (FG.metaGet db "preloadComplete")
         email now) := rfl

/-- Case analysis of the checks of `needsUpdate` after the
interrupted-preload test: the user-mismatch branch is the only one that
writes to the metadata store, and the only one that returns
`user_changed`. -/
theorem nuAfter_spec (db : List FG.MetaRec) (m cu pc : Option FG.MetaRec)
    (email : String) (now : ℤ) :
    ((cu = none ∨ ∀ rec, cu = some rec → rec.value ≠ .s email) →
      FG.needsUpdate.needsUpdateAfterState db m cu pc email now =
        (.yes "user_changed" none, FG.metaPut db "preloadComplete" (.b false))) ∧
    (¬ (cu = none ∨ ∀ rec, cu = some rec → rec.value ≠ .s email) →
      (FG.needsUpdate.needsUpdateAfterState db m cu pc email now).2 = db ∧
      (FG.needsUpdate.needsUpdateAfterState db m cu pc email now).1 ≠
        .yes "user_changed" none) := by
  constructor
  · intro h
    unfold FG.needsUpdate.needsUpdateAfterState
    rw [if_pos h]
  · intro h
    unfold FG.needsUpdate.needsUpdateAfterState
    rw [if_neg h]
    refine ⟨?_, ?_⟩ <;> (repeat' split) <;> simp

/-- When no interrupted `loading` state is present, `needsUpdate` reduces
to the post-state checks. -/
theorem needsUpdate_no_interrupt (db : List FG.MetaRec)
    (ps : Option FG.PreloadState) (email : String) (now : ℤ)
    (hnl : ∀ s, ps = some s → s.status ≠ "loading") :
    FG.needsUpdate db ps email now =
      FG.needsUpdate.needsUpdateAfterState db (FG.metaGet db "lastUpdate")
        (FG.metaGet db "cachedUser") (FG.metaGet db "preloadComplete")
        email now := by
  cases hps : ps with
  | none => exact needsUpdate_none_eq db email now
  | some s => rw [needsUpdate_some_eq, if_neg (hnl s hps)]

/-- C4: a stored completion marker whose email differs from the requesting
user's makes the status check report `different_user` (with no freshness
condition, hence even for a fresh marker), and the foreground
`needsUpdate` check, when not short-circuited by an interrupted preload,
reports `user_changed` and invalidates the completion flag by writing
`preloadComplete = false`. -/
theorem different_user_requires_preload
    (marker : SW.CompletionMarker) (email : String) (now : ℤ)
    (db : List FG.MetaRec) (ps : Option FG.PreloadState)
    (hdiff : marker.email ≠ email)
    (hnl : ∀ s, ps = some s → s.status ≠ "loading")
    (hcu : ∀ r, FG.metaGet db "cachedUser" = some r → r.value ≠ .s email) :
    SW.checkPreloadStatus (some marker) email now =
      .notComplete "different_user" ∧
    FG.needsUpdate db ps email now =
      (.yes "user_changed" none, FG.metaPut db "preloadComplete" (.b false)) := by
  constructor
  · simp [SW.checkPreloadStatus, hdiff]
  · have hcond : FG.metaGet db "cachedUser" = none ∨
        (∀ r, FG.metaGet db "cachedUser" = some r → r.value ≠ FG.MetaVal.s email) := by
      rcases hc : FG.metaGet db "cachedUser" with _ | r
      · exact Or.inl rfl
      · right
        intro rec hrec
        cases hrec
        exact hcu r hc
    rw [needsUpdate_no_interrupt db ps email now hnl]
    exact (nuAfter_spec db (FG.metaGet db "lastUpdate")
      (FG.metaGet db "cachedUser") (FG.metaGet db "preloadComplete")
      email now).1 hcond

/-- Witness for `different_user_requires_preload`: a fresh marker for
`"a@x"` checked by `"b@x"`, and an empty metadata store. -/
theorem different_user_requires_preload_witness :
    SW.checkPreloadStatus (some ⟨"a@x", 0, 1, 2⟩) "b@x" 1000 =
      .notComplete "different_user" ∧
    FG.needsUpdate [] none "b@x" 1000 =
      (.yes "user_changed" none, [⟨"preloadComplete", .b false⟩]) :=
  different_user_requires_preload ⟨"a@x", 0, 1, 2⟩ "b@x" 1000 [] none
    (by decide) (fun s h => by cases h) (fun r h => by cases h)

/-- C10: `needsUpdate` writes to the metadata store exactly in the
user-mismatch outcome: when an interrupted (`loading`) persisted state is
found, it returns with the store unchanged even if the cached user
differs; when no interrupted state exists and the cached user record is
absent or differs from the requesting email, it writes
`preloadComplete = false` and returns `user_changed`; in every other
outcome the store is returned unchanged. -/
theorem needsUpdate_writes_only_on_user_change
    (db : List FG.MetaRec) (ps : Option FG.PreloadState) (email : String)
    (now : ℤ) :
    (∀ s, ps = some s → s.status = "loading" →
      FG.needsUpdate db ps email now = (.yes "interrupted" (some s), db)) ∧
    ((∀ s, ps = some s → s.status ≠ "loading") →
      ((FG.metaGet db "cachedUser" = none ∨
          ∀ r, FG.metaGet db "cachedUser" = some r → r.value ≠ .s email) ↔
        (FG.needsUpdate db ps email now).1 = .yes "user_changed" none)) ∧
    ((∀ s, ps = some s → s.status ≠ "loading") →
      (FG.metaGet db "cachedUser" = none ∨
        ∀ r, FG.metaGet db "cachedUser" = some r → r.value ≠ .s email) →
      (FG.needsUpdate db ps email now).2 =
        FG.metaPut db "preloadComplete" (.b false)) ∧
    ((FG.needsUpdate db ps email now).1 ≠ .yes "user_changed" none →
      (FG.needsUpdate db ps email now).2 = db) := by
  have hspec := nuAfter_spec db (FG.metaGet db "lastUpdate")
    (FG.metaGet db "cachedUser") (FG.metaGet db "preloadComplete") email now
  refine ⟨?_, ?_, ?_, ?_⟩
  · intro s hps hstat
    subst hps
    rw [needsUpdate_some_eq, if_pos hstat]
  · intro hnl
    rw [needsUpdate_no_interrupt db ps email now hnl]
    constructor
    · intro hcond
      rw [hspec.1 hcond]
    · intro hres
      by_contra hcond
      exact (hspec.2 hcond).2 hres
  · intro hnl hcond
    rw [needsUpdate_no_interrupt db ps email now hnl, hspec.1 hcond]
  · intro hres
    cases hps : ps with
    | none =>
      rw [hps] at hres
      rw [needsUpdate_none_eq] at hres ⊢
      by_cases hcond : (FG.metaGet db "cachedUser" = none ∨
          ∀ r, FG.metaGet db "cachedUser" = some r → r.value ≠ FG.MetaVal.s email)
      · exact absurd (by rw [hspec.1 hcond]) hres
      · exact (hspec.2 hcond).1
    | some s =>
      rw [hps] at hres
      by_cases hstat : s.status = "loading"
      · rw [needsUpdate_some_eq, if_pos hstat]
      · rw [needsUpdate_some_eq, if_neg hstat] at hres ⊢
        by_cases hcond : (FG.metaGet db "cachedUser" = none ∨
            ∀ r, FG.metaGet db "cachedUser" = some r → r.value ≠ FG.MetaVal.s email)
        · exact absurd (by rw [hspec.1 hcond]) hres
        · exact (hspec.2 hcond).1

/-- Witness for `needsUpdate_writes_only_on_user_change`: with a matching
cached user and completed flag the store is unchanged. -/
theorem needsUpdate_writes_only_on_user_change_witness :
    (FG.needsUpdate [⟨"cachedUser", .s "u"⟩, ⟨"preloadComplete", .b true⟩]
      none "u" 1000).2 =
      [⟨"cachedUser", .s "u"⟩, ⟨"preloadComplete", .b true⟩] :=
  (needsUpdate_writes_only_on_user_change
    [⟨"cachedUser", .s "u"⟩, ⟨"preloadComplete", .b true⟩] none "u" 1000).2.2.2
    (by decide)

/-- C2 counterexample: a persisted `loading` state 31 seconds old (older
than the 30-second staleness threshold) is not discarded by every
consumer: `OfflinePreloader.needsUpdate` returns `interrupted` with that
very state as the basis for its resume decision. -/
theorem stale_loading_resume_counterexample :
    ((31000 : ℤ) - (0 : ℤ) > 30000) ∧
    FG.needsUpdate [] (some ⟨"loading", none, none, none, none, 0⟩)
        "user@test.com" 31000 =
      (.yes "interrupted" (some ⟨"loading", none, none, none, none, 0⟩), []) := by
  constructor
  · decide
  · rfl

/-- C2 (amended): the display consumer `GlobalPreloadBar.checkInitialState`
does discard a `loading` state older than 30 seconds (clearing it instead
of displaying it), but `OfflinePreloader.needsUpdate` resumes from any
persisted `loading` state regardless of its age. -/
theorem stale_loading_state_handling
    (s : FG.PreloadState) (now : ℤ) (db : List FG.MetaRec)
    (ps : Option FG.PreloadState) (email : String)
    (hload : s.status = "loading") :
    (now - s.timestamp > 30000 → Bar.checkInitialState (some s) now = .clearState) ∧
    (ps = some s → (FG.needsUpdate db ps email now).1 = .yes "interrupted" (some s)) := by
  constructor
  · intro hstale
    unfold Bar.checkInitialState
    have hnc : s.status ≠ "complete" := by rw [hload]; decide
    simp [hload, hstale, hnc]
  · intro hps
    subst hps
    rw [needsUpdate_some_eq, if_pos hload]

/-- Witness for `stale_loading_state_handling` at a 31-second-old state. -/
theorem stale_loading_state_handling_witness :
    Bar.checkInitialState (some ⟨"loading", none, none, none, none, 0⟩) 31000 =
      .clearState ∧
    (FG.needsUpdate [] (some ⟨"loading", none, none, none, none, 0⟩) "u" 31000).1 =
      .yes "interrupted" (some ⟨"loading", none, none, none, none, 0⟩) :=
  ⟨(stale_loading_state_handling ⟨"loading", none, none, none, none, 0⟩ 31000 []
      (some ⟨"loading", none, none, none, none, 0⟩) "u" rfl).1 (by decide),
   (stale_loading_state_handling ⟨"loading", none, none, none, none, 0⟩ 31000 []
      (some ⟨"loading", none, none, none, none, 0⟩) "u" rfl).2 rfl⟩

/-- C8: `getUserData(forceRefresh)` serves the session copy with no
network fetch when `forceRefresh` is false and the copy is younger than 5
minutes; otherwise it performs a fetch — an ok response is returned and
cached, and on a fetch failure (non-ok status or thrown error) the last
good cached copy is returned when one exists, else the failure is
propagated as an error. -/
theorem getUserData_cache_policy
    (store : SC.SessStore) (forceRefresh : Bool) (now : ℤ)
    (fetch : SC.FetchRes) :
    (∀ d t, forceRefresh = false → store.data = some d →
      store.timestamp = some t → now - t < SC.CACHE_DURATION →
      SC.getUserData store forceRefresh now fetch =
        { result := .ok d, store := store, fetched := false }) ∧
    (forceRefresh = true ∨ store.data = none ∨ store.timestamp = none ∨
        (∀ t, store.timestamp = some t → SC.CACHE_DURATION ≤ now - t) →
      (SC.getUserData store forceRefresh now fetch).fetched = true ∧
      (∀ p, fetch = .ok p →
        SC.getUserData store forceRefresh now fetch =
          { result := .ok p,
            store := { data := some p, timestamp := some now },
            fetched := true }) ∧
      ((∀ p, fetch ≠ .ok p) →
        ((∃ d, store.data = some d ∧
            SC.getUserData store forceRefresh now fetch =
              { result := .ok d, store := store, fetched := true }) ∨
         (store.data = none ∧
           ∃ e, (SC.getUserData store forceRefresh now fetch).result =
             .error e)))) := by
  constructor
  · intro d t hf hd ht hlt
    unfold SC.getUserData
    rw [hf, hd, ht]
    simp [hlt]
  · intro hstale
    have hfresh : (!forceRefresh &&
        match store.data, store.timestamp with
        | some _, some t => decide (now - t < SC.CACHE_DURATION)
        | _, _ => false) = false := by
      rcases hstale with hf | hd | ht | hold
      · rw [hf]; simp
      · rw [hd]; cases store.timestamp <;> simp
      · rw [ht]; cases store.data <;> simp
      · cases hd : store.data with
        | none => cases store.timestamp <;> simp
        | some d =>
          cases ht : store.timestamp with
          | none => simp
          | some t =>
            have h2 : ¬ (now - t < SC.CACHE_DURATION) := not_lt.mpr (hold t ht)
            simp [h2]
    refine ⟨?_, ?_, ?_⟩
    · unfold SC.getUserData
      rw [hfresh]
      simp only [Bool.false_eq_true, if_false]
      cases fetch with
      | ok p => rfl
      | httpError c => cases store.data <;> rfl
      | netFail => cases store.data <;> rfl
    · intro p hp
      unfold SC.getUserData
      rw [hfresh, hp]
      rfl
    · intro hfail
      unfold SC.getUserData
      rw [hfresh]
      simp only [Bool.false_eq_true, if_false]
      cases fetch with
      | ok p => exact absurd rfl (hfail p)
      | httpError c =>
        cases hd : store.data with
        | none => exact Or.inr ⟨rfl, "HTTP " ++ toString c, rfl⟩
        | some d => exact Or.inl ⟨d, rfl, rfl⟩
      | netFail =>
        cases hd : store.data with
        | none => exact Or.inr ⟨rfl, "network", rfl⟩
        | some d => exact Or.inl ⟨d, rfl, rfl⟩

/-- Witness for `getUserData_cache_policy`: a 1-second-old copy is served
without fetching; a 400-second-old copy falls back to the cache after a
failed fetch. -/
theorem getUserData_cache_policy_witness :
    SC.getUserData ⟨some "D", some 0⟩ false 1000 .netFail =
      { result := .ok "D", store := ⟨some "D", some 0⟩, fetched := false } ∧
    SC.getUserData ⟨some "D", some 0⟩ false 400000 .netFail =
      { result := .ok "D", store := ⟨some "D", some 0⟩, fetched := true } := by
  constructor
  · exact (getUserData_cache_policy ⟨some "D", some 0⟩ false 1000 .netFail).1
      "D" 0 rfl rfl rfl (by decide)
  · have h := ((getUserData_cache_policy ⟨some "D", some 0⟩ false 400000
      .netFail).2 (Or.inr (Or.inr (Or.inr (fun t ht => by
        cases ht; decide))))).2.2 (fun p hp => by cases hp)
    rcases h with ⟨d, hd, heq⟩ | ⟨hnone, _⟩
    · cases hd; exact heq
    · cases hnone

theorem takeWhile_append_all {α : Type} (p : α → Bool) (l1 l2 : List α)
    (h : ∀ x ∈ l1, p x = true) :
    (l1 ++ l2).takeWhile p = l1 ++ l2.takeWhile p := by
  induction l1 with
  | nil => simp
  | cons a l ih =>
    have ha : p a = true := h a (by simp)
    simp only [List.cons_append, List.takeWhile_cons, ha, if_true]
    simp [ih (fun x hx => h x (by simp [hx]))]

theorem dropWhile_append_all {α : Type} (p : α → Bool) (l1 l2 : List α)
    (h : ∀ x ∈ l1, p x = true) :
    (l1 ++ l2).dropWhile p = l2.dropWhile p := by
  induction l1 with
  | nil => simp
  | cons a l ih =>
    simp only [List.cons_append, List.dropWhile_cons, h a (by simp)]
    exact ih (fun x hx => h x (by simp [hx]))

theorem takeWhile_head_neg {α : Type} (p : α → Bool) (l : List α)
    (h : ∀ x, l.head? = some x → p x = false) : l.takeWhile p = [] := by
  cases l with
  | nil => rfl
  | cons a l => simp [List.takeWhile_cons, h a rfl]

theorem dropWhile_head_neg {α : Type} (p : α → Bool) (l : List α)
    (h : ∀ x, l.head? = some x → p x = false) : l.dropWhile p = l := by
  cases l with
  | nil => rfl
  | cons a l => simp [List.dropWhile_cons, h a rfl]

/-- C9: the loop expansion unrolls each maximal run of consecutive phases
sharing a (truthy) `loopGroup`: the run is replicated as a block
`loopCount` times, the count taken from the first phase of the run and
defaulting to 1 when absent; a phase without `loopGroup` is emitted
exactly once in place; blocks keep their relative order (the expansion of
the remainder follows the expanded block).  `getRunWorkoutExpanded`
returns `none` exactly when the named workout is absent or lacks a
`phases` field, and otherwise reports `totalExpandedPhases` equal to the
length of the expanded list. -/
theorem expandPhases_loop_unrolling
    (p : DP.RunPhase) (run rest : List DP.RunPhase) (g : String)
    (cache : List (String × DP.RunWorkoutData)) (name : String) :
    (p.loopGroup = none → DP.expandPhases (p :: rest) =
      ⟨p, none, none, none⟩ :: DP.expandPhases rest) ∧
    (p.loopGroup = some g → g ≠ "" →
      (∀ q ∈ run, q.loopGroup = some g) →
      (∀ q, rest.head? = some q → q.loopGroup ≠ some g) →
      DP.expandPhases (p :: (run ++ rest)) =
        DP.expandRun (p :: run) (DP.jsLoopCount p.loopCount) ++
          DP.expandPhases rest) ∧
    DP.jsLoopCount none = 1 ∧
    (DP.getRunWorkoutExpanded cache name = none ↔
      (FG.lookupAL cache name = none ∨
        ∃ w, FG.lookupAL cache name = some w ∧ w.phases = none)) ∧
    (∀ e, DP.getRunWorkoutExpanded cache name = some e →
      e.totalExpandedPhases = e.expandedPhases.length) := by
  refine ⟨?_, ?_, rfl, ?_, ?_⟩
  · intro h
    conv_lhs => unfold DP.expandPhases
    simp only [h]
  · intro hg hne hrun hrest
    have htake : (run ++ rest).takeWhile (DP.inGroup g) = run := by
      rw [takeWhile_append_all (DP.inGroup g) run rest
        (fun x hx => by simp [DP.inGroup, hrun x hx])]
      rw [takeWhile_head_neg (DP.inGroup g) rest
        (fun x hx => by simp [DP.inGroup, hrest x hx])]
      simp
    have hdrop : (run ++ rest).dropWhile (DP.inGroup g) = rest := by
      rw [dropWhile_append_all (DP.inGroup g) run rest
        (fun x hx => by simp [DP.inGroup, hrun x hx])]
      exact dropWhile_head_neg (DP.inGroup g) rest
        (fun x hx => by simp [DP.inGroup, hrest x hx])
    conv_lhs => unfold DP.expandPhases
    simp only [hg, hne, if_false, htake, hdrop]
  · unfold DP.getRunWorkoutExpanded
    rcases hl : FG.lookupAL cache name with _ | w
    · simp
    · rcases hp : w.phases with _ | ps
      · simp [hp]
      · simp [hp, hl]
  · intro e he
    unfold DP.getRunWorkoutExpanded at he
    rcases hl : FG.lookupAL cache name with _ | w <;> rw [hl] at he
    · cases he
    · rcases hp : w.phases with _ | ps <;> simp only [hp] at he
      · cases he
      · cases he
        rfl

/-- Witness for `expandPhases_loop_unrolling`: a two-phase loop group with
count 2 followed by a plain phase. -/
theorem expandPhases_loop_unrolling_witness :
    DP.expandPhases
        [⟨some "A", some 2, "a1"⟩, ⟨some "A", none, "a2"⟩, ⟨none, none, "x"⟩] =
      DP.expandRun [⟨some "A", some 2, "a1"⟩, ⟨some "A", none, "a2"⟩] 2 ++
        DP.expandPhases [⟨none, none, "x"⟩] :=
  (expandPhases_loop_unrolling ⟨some "A", some 2, "a1"⟩
      [⟨some "A", none, "a2"⟩] [⟨none, none, "x"⟩] "A" [] "w").2.1
    rfl (by decide) (by decide) (by decide)

theorem addUnique_subset (l : List String) (x : String) : l ⊆ addUnique l x := by
  intro y hy
  exact mem_addUnique_of_mem hy

theorem collectExercise_mono (acc : FG.Collected) (ex : FG.Exercise) :
    acc.imageUrls ⊆ (FG.collectExercise acc ex).imageUrls ∧
    acc.audioTexts ⊆ (FG.collectExercise acc ex).audioTexts := by
  unfold FG.collectExercise
  constructor <;> (repeat' split) <;>
    simp_all [List.Subset.refl, addUnique_subset]

theorem collectRunLine_mono (acc : FG.Collected) (line : FG.RunLine) :
    acc.imageUrls ⊆ (FG.collectRunLine acc line).imageUrls ∧
    acc.audioTexts ⊆ (FG.collectRunLine acc line).audioTexts := by
  unfold FG.collectRunLine
  constructor <;> (repeat' split) <;>
    simp_all [List.Subset.refl, addUnique_subset]

theorem collectWorkout_mono (ui : FG.UserInfo) (acc : FG.Collected)
    (w : FG.WorkoutRef) :
    acc.imageUrls ⊆ (FG.collectWorkout ui acc w).imageUrls ∧
    acc.audioTexts ⊆ (FG.collectWorkout ui acc w).audioTexts := by
  unfold FG.collectWorkout
  (repeat' split) <;>
    first
    | exact ⟨List.Subset.refl _, List.Subset.refl _⟩
    | · constructor
        · refine foldl_preserve
            (fun (c : FG.Collected) => acc.imageUrls ⊆ c.imageUrls)
            FG.collectExercise ?_ _ _ (List.Subset.refl _)
          intro a b ha
          exact ha.trans (collectExercise_mono a b).1
        · refine foldl_preserve
            (fun (c : FG.Collected) => acc.audioTexts ⊆ c.audioTexts)
            FG.collectExercise ?_ _ _ (List.Subset.refl _)
          intro a b ha
          exact ha.trans (collectExercise_mono a b).2
    | · constructor
        · refine foldl_preserve
            (fun (c : FG.Collected) => acc.imageUrls ⊆ c.imageUrls)
            FG.collectRunLine ?_ _ _ (List.Subset.refl _)
          intro a b ha
          exact ha.trans (collectRunLine_mono a b).1
        · refine foldl_preserve
            (fun (c : FG.Collected) => acc.audioTexts ⊆ c.audioTexts)
            FG.collectRunLine ?_ _ _ (List.Subset.refl _)
          intro a b ha
          exact ha.trans (collectRunLine_mono a b).2

theorem collectPlan_mono (ui : FG.UserInfo) (acc : FG.Collected)
    (planName : String) :
    acc.imageUrls ⊆ (FG.collectPlan ui acc planName).imageUrls ∧
    acc.audioTexts ⊆ (FG.collectPlan ui acc planName).audioTexts := by
  unfold FG.collectPlan
  (repeat' split) <;>
    first
    | exact ⟨List.Subset.refl _, List.Subset.refl _⟩
    | · constructor
        · refine foldl_preserve
            (fun (c : FG.Collected) => acc.imageUrls ⊆ c.imageUrls)
            (FG.collectWorkout ui) ?_ _ _ (List.Subset.refl _)
          intro a b ha
          exact ha.trans (collectWorkout_mono ui a b).1
        · refine foldl_preserve
            (fun (c : FG.Collected) => acc.audioTexts ⊆ c.audioTexts)
            (FG.collectWorkout ui) ?_ _ _ (List.Subset.refl _)
          intro a b ha
          exact ha.trans (collectWorkout_mono ui a b).2

theorem foldl_mem_images_intro {β : Type} (step : FG.Collected → β → FG.Collected)
    (hmono : ∀ a b, a.imageUrls ⊆ (step a b).imageUrls)
    (x : β) (u : String) (hx : ∀ a, u ∈ (step a x).imageUrls) :
    ∀ (l : List β) (acc : FG.Collected), x ∈ l →
      u ∈ (l.foldl step acc).imageUrls := by
  intro l
  induction l with
  | nil => intro acc h; cases h
  | cons y ys ih =>
    intro acc h
    rcases List.mem_cons.mp h with rfl | hmem
    · exact foldl_preserve (fun c => u ∈ c.imageUrls) step
        (fun a b ha => hmono a b ha) ys (step acc x) (hx acc)
    · exact ih (step acc y) hmem

theorem collectExercise_adds_image (acc : FG.Collected) (ex : FG.Exercise)
    (u : String) (himg : ex.imageUrl = some u) (hne : u ≠ "") :
    u ∈ (FG.collectExercise acc ex).imageUrls := by
  unfold FG.collectExercise
  simp only [himg]
  rw [if_pos hne]
  (repeat' split) <;> exact mem_addUnique_self acc.imageUrls u

theorem collectWorkout_adds_image (ui : FG.UserInfo) (acc : FG.Collected)
    (w : FG.WorkoutRef) (wd : FG.MuscleWorkout) (exs : List FG.Exercise)
    (ex : FG.Exercise) (u : String)
    (htype : w.type = "muscle")
    (hwd : FG.lookupAL ui.allWorkoutsData w.name = some wd)
    (hexs : wd.exercises = some exs) (hex : ex ∈ exs)
    (himg : ex.imageUrl = some u) (hne : u ≠ "") :
    u ∈ (FG.collectWorkout ui acc w).imageUrls := by
  have hred : FG.collectWorkout ui acc w = exs.foldl FG.collectExercise acc := by
    unfold FG.collectWorkout
    simp [htype, hwd, hexs]
  rw [hred]
  exact foldl_mem_images_intro FG.collectExercise
    (fun a b => (collectExercise_mono a b).1) ex u
    (fun a => collectExercise_adds_image a ex u himg hne) exs acc hex

theorem collectPlan_adds_image (ui : FG.UserInfo) (acc : FG.Collected)
    (planName : String) (plan : FG.Plan) (ws : List FG.WorkoutRef)
    (wref : FG.WorkoutRef) (wd : FG.MuscleWorkout) (exs : List FG.Exercise)
    (ex : FG.Exercise) (u : String)
    (hplan : FG.lookupAL ui.allPlansData planName = some plan)
    (hws : plan.workouts = some ws) (hw : wref ∈ ws)
    (htype : wref.type = "muscle")
    (hwd : FG.lookupAL ui.allWorkoutsData wref.name = some wd)
    (hexs : wd.exercises = some exs) (hex : ex ∈ exs)
    (himg : ex.imageUrl = some u) (hne : u ≠ "") :
    u ∈ (FG.collectPlan ui acc planName).imageUrls := by
  have hred : FG.collectPlan ui acc planName =
      ws.foldl (FG.collectWorkout ui) acc := by
    unfold FG.collectPlan
    simp [hplan, hws]
  rw [hred]
  exact foldl_mem_images_intro (FG.collectWorkout ui)
    (fun a b => (collectWorkout_mono ui a b).1) wref u
    (fun a => collectWorkout_adds_image ui a wref wd exs ex u htype hwd hexs
      hex himg hne) ws acc hw

theorem collectExercise_nodup (acc : FG.Collected) (ex : FG.Exercise)
    (h : acc.imageUrls.Nodup ∧ acc.audioTexts.Nodup) :
    (FG.collectExercise acc ex).imageUrls.Nodup ∧
    (FG.collectExercise acc ex).audioTexts.Nodup := by
  unfold FG.collectExercise
  (repeat' split) <;> simp_all [addUnique_nodup]

theorem collectRunLine_nodup (acc : FG.Collected) (line : FG.RunLine)
    (h : acc.imageUrls.Nodup ∧ acc.audioTexts.Nodup) :
    (FG.collectRunLine acc line).imageUrls.Nodup ∧
    (FG.collectRunLine acc line).audioTexts.Nodup := by
  unfold FG.collectRunLine
  (repeat' split) <;> simp_all [addUnique_nodup]

theorem collectWorkout_nodup (ui : FG.UserInfo) (acc : FG.Collected)
    (w : FG.WorkoutRef) (h : acc.imageUrls.Nodup ∧ acc.audioTexts.Nodup) :
    (FG.collectWorkout ui acc w).imageUrls.Nodup ∧
    (FG.collectWorkout ui acc w).audioTexts.Nodup := by
  unfold FG.collectWorkout
  (repeat' split) <;>
    first
    | exact h
    | exact foldl_preserve
        (fun (c : FG.Collected) => c.imageUrls.Nodup ∧ c.audioTexts.Nodup)
        FG.collectExercise (fun a b hb => collectExercise_nodup a b hb) _ _ h
    | exact foldl_preserve
        (fun (c : FG.Collected) => c.imageUrls.Nodup ∧ c.audioTexts.Nodup)
        FG.collectRunLine (fun a b hb => collectRunLine_nodup a b hb) _ _ h

theorem collectPlan_nodup (ui : FG.UserInfo) (acc : FG.Collected)
    (planName : String) (h : acc.imageUrls.Nodup ∧ acc.audioTexts.Nodup) :
    (FG.collectPlan ui acc planName).imageUrls.Nodup ∧
    (FG.collectPlan ui acc planName).audioTexts.Nodup := by
  unfold FG.collectPlan
  (repeat' split) <;>
    first
    | exact h
    | exact foldl_preserve
        (fun (c : FG.Collected) => c.imageUrls.Nodup ∧ c.audioTexts.Nodup)
        (FG.collectWorkout ui) (fun a b hb => collectWorkout_nodup ui a b hb)
        _ _ h

/-- C7: the resource collector returns duplicate-free lists (set
semantics), and any exercise image URL referenced through any assigned
plan — in particular one referenced by two plans through the same workout
— appears exactly once in the returned image list. -/
theorem collectResources_dedup (userInfo : FG.UserInfo) :
    (FG.collectResourcesFromPlans userInfo).imageUrls.Nodup ∧
    (FG.collectResourcesFromPlans userInfo).audioTexts.Nodup ∧
    (∀ (u planName : String) (plan : FG.Plan) (ws : List FG.WorkoutRef)
        (wref : FG.WorkoutRef) (wd : FG.MuscleWorkout)
        (exs : List FG.Exercise) (ex : FG.Exercise),
      planName ∈ userInfo.plans →
      FG.lookupAL userInfo.allPlansData planName = some plan →
      plan.workouts = some ws → wref ∈ ws → wref.type = "muscle" →
      FG.lookupAL userInfo.allWorkoutsData wref.name = some wd →
      wd.exercises = some exs → ex ∈ exs → ex.imageUrl = some u → u ≠ "" →
      (FG.collectResourcesFromPlans userInfo).imageUrls.count u = 1) := by
  have hbase : FG.commonImages.Nodup ∧ ([] : List String).Nodup := by
    constructor
    · decide
    · exact List.nodup_nil
  have hacc1 := foldl_preserve
    (fun (c : FG.Collected) => c.imageUrls.Nodup ∧ c.audioTexts.Nodup)
    (FG.collectPlan userInfo)
    (fun a b hb => collectPlan_nodup userInfo a b hb)
    userInfo.plans ⟨FG.commonImages, []⟩ hbase
  have himg : (FG.collectResourcesFromPlans userInfo).imageUrls =
      (userInfo.plans.foldl (FG.collectPlan userInfo)
        ⟨FG.commonImages, []⟩).imageUrls := by
    unfold FG.collectResourcesFromPlans
    rfl
  have haud : (FG.collectResourcesFromPlans userInfo).audioTexts =
      FG.commonCues.foldl addUnique
        (userInfo.plans.foldl (FG.collectPlan userInfo)
          ⟨FG.commonImages, []⟩).audioTexts := by
    simp only [FG.collectResourcesFromPlans]
  refine ⟨?_, ?_, ?_⟩
  · rw [himg]
    exact hacc1.1
  · rw [haud]
    exact foldl_preserve (fun (l : List String) => l.Nodup) addUnique
      (fun a b hb => addUnique_nodup hb b) FG.commonCues _ hacc1.2
  · intro u planName plan ws wref wd exs ex hpmem hplan hws hw htype hwd hexs
      hex himgu hne
    have hmem : u ∈ (userInfo.plans.foldl (FG.collectPlan userInfo)
        ⟨FG.commonImages, []⟩).imageUrls :=
      foldl_mem_images_intro (FG.collectPlan userInfo)
        (fun a b => (collectPlan_mono userInfo a b).1) planName u
        (fun a => collectPlan_adds_image userInfo a planName plan ws wref wd
          exs ex u hplan hws hw htype hwd hexs hex himgu hne)
        userInfo.plans ⟨FG.commonImages, []⟩ hpmem
    rw [himg]
    exact List.count_eq_one_of_mem hacc1.1 hmem

/-- Witness for `collectResources_dedup`: two plans referencing the same
workout and the same exercise image URL yield one entry for it. -/
theorem collectResources_dedup_witness :
    (FG.collectResourcesFromPlans
      ⟨"u", ["P1", "P2"],
        [("P1", ⟨some [⟨"muscle", "W"⟩]⟩), ("P2", ⟨some [⟨"muscle", "W"⟩]⟩)],
        [("W", ⟨some [⟨some "http://img/1", some "Push Up"⟩]⟩)],
        []⟩).imageUrls.count "http://img/1" = 1 :=
  (collectResources_dedup
    ⟨"u", ["P1", "P2"],
      [("P1", ⟨some [⟨"muscle", "W"⟩]⟩), ("P2", ⟨some [⟨"muscle", "W"⟩]⟩)],
      [("W", ⟨some [⟨some "http://img/1", some "Push Up"⟩]⟩)],
      []⟩).2.2 "http://img/1" "P1" ⟨some [⟨"muscle", "W"⟩]⟩
    [⟨"muscle", "W"⟩] ⟨"muscle", "W"⟩
    ⟨some [⟨some "http://img/1", some "Push Up"⟩]⟩
    [⟨some "http://img/1", some "Push Up"⟩]
    ⟨some "http://img/1", some "Push Up"⟩
    (by decide) (by decide) rfl (by decide) rfl (by decide) rfl
    (by decide) rfl (by decide)

theorem chain_lt_cons (c : ℕ) (l : List ℕ) (hc : List.Chain' (· < ·) l)
    (hall : ∀ x ∈ l, c < x) : List.Chain' (· < ·) (c :: l) := by
  cases l with
  | nil => simp
  | cons a l' => exact List.Chain'.cons (hall a (by simp)) hc

/-- One non-aborted step of the image loop: the recursion continues on an
accumulator whose broadcast list grew by the progress record of index `i`
when `i % 5 = 0` or `i` is last, else is unchanged. -/
theorem imagesLoop_cons (fetchOk : String → Bool) (aborted : ℕ → Bool)
    (total : ℕ) (url : String) (rest : List String) (i : ℕ) (acc : SW.RunAcc)
    (hab : ¬ aborted acc.tick = true) :
    ∃ acc3 : SW.RunAcc,
      SW.imagesLoop fetchOk aborted total (url :: rest) i acc =
        SW.imagesLoop fetchOk aborted total rest (i + 1) acc3 ∧
      acc3.broadcasts = acc.broadcasts ++
        (if i % 5 = 0 ∨ i = total - 1 then
          [⟨"images", i + 1, total,
            jsRound (((i + 1 : ℕ) : ℚ) / (total : ℚ) * 100)⟩]
        else []) := by
  simp only [SW.imagesLoop]
  rw [if_neg hab]
  refine ⟨_, rfl, ?_⟩
  (repeat' split) <;> simp_all

/-- One non-aborted step of the audio loop, analogous to
`imagesLoop_cons` with period 10. -/
theorem audioLoop_cons (ttsOk : String → Bool) (aborted : ℕ → Bool)
    (total : ℕ) (text : String) (rest : List String) (i : ℕ) (acc : SW.RunAcc)
    (hab : ¬ aborted acc.tick = true) :
    ∃ acc3 : SW.RunAcc,
      SW.audioLoop ttsOk aborted total (text :: rest) i acc =
        SW.audioLoop ttsOk aborted total rest (i + 1) acc3 ∧
      acc3.broadcasts = acc.broadcasts ++
        (if i % 10 = 0 ∨ i = total - 1 then
          [⟨"audio", i + 1, total,
            jsRound (((i + 1 : ℕ) : ℚ) / (total : ℚ) * 100)⟩]
        else []) := by
  simp only [SW.audioLoop]
  rw [if_neg hab]
  refine ⟨_, rfl, ?_⟩
  (repeat' split) <;> simp_all

/-- The image loop appends progress records with phase `images`, totals
equal to `total`, strictly increasing `current` values in
`(i, total]`. -/
theorem imagesLoop_broadcasts (fetchOk : String → Bool) (aborted : ℕ → Bool)
    (total : ℕ) :
    ∀ (rest : List String) (i : ℕ) (acc : SW.RunAcc),
      i + rest.length = total →
      ∃ tail : List SW.Broadcast,
        (SW.imagesLoop fetchOk aborted total rest i acc).broadcasts =
          acc.broadcasts ++ tail ∧
        (∀ b ∈ tail, b.phase = "images" ∧ b.total = total ∧
          i + 1 ≤ b.current ∧ b.current ≤ total) ∧
        List.Chain' (· < ·) (tail.map SW.Broadcast.current) := by
  intro rest
  induction rest with
  | nil =>
    intro i acc h
    exact ⟨[], by simp [SW.imagesLoop], by simp, by simp⟩
  | cons url rest ih =>
    intro i acc h
    have htot : i < total := by
      simp only [List.length_cons] at h
      omega
    by_cases hab : aborted acc.tick = true
    · simp only [SW.imagesLoop, hab, if_true]
      exact ⟨[], by simp, by simp, by simp⟩
    · obtain ⟨acc3, hstep, hb3⟩ :=
        imagesLoop_cons fetchOk aborted total url rest i acc hab
      obtain ⟨tail, heq, hmem, hchain⟩ := ih (i + 1) acc3
        (by simp only [List.length_cons] at h; omega)
      refine ⟨(if i % 5 = 0 ∨ i = total - 1 then
          [⟨"images", i + 1, total,
            jsRound (((i + 1 : ℕ) : ℚ) / (total : ℚ) * 100)⟩]
        else []) ++ tail, ?_, ?_, ?_⟩
      · rw [hstep, heq, hb3, List.append_assoc]
      · intro b hb
        rcases List.mem_append.mp hb with hb0 | hbt
        · by_cases hbc : i % 5 = 0 ∨ i = total - 1
          · rw [if_pos hbc] at hb0
            simp only [List.mem_singleton] at hb0
            subst hb0
            exact ⟨rfl, rfl, le_refl _, by show i + 1 ≤ total; omega⟩
          · rw [if_neg hbc] at hb0
            cases hb0
        · obtain ⟨hp, ht, hge, hle⟩ := hmem b hbt
          exact ⟨hp, ht, by omega, hle⟩
      · by_cases hbc : i % 5 = 0 ∨ i = total - 1
        · rw [if_pos hbc]
          simp only [List.singleton_append, List.map_cons]
          apply chain_lt_cons _ _ hchain
          intro x hx
          simp only [List.mem_map] at hx
          obtain ⟨b', hb', rfl⟩ := hx
          have h2 := (hmem b' hb').2.2.1
          simpa using by omega
        · rw [if_neg hbc]
          simpa using hchain

/-- The audio loop appends progress records with phase `audio`, totals
equal to `total`, strictly increasing `current` values in
`(i, total]`. -/
theorem audioLoop_broadcasts (ttsOk : String → Bool) (aborted : ℕ → Bool)
    (total : ℕ) :
    ∀ (rest : List String) (i : ℕ) (acc : SW.RunAcc),
      i + rest.length = total →
      ∃ tail : List SW.Broadcast,
        (SW.audioLoop ttsOk aborted total rest i acc).broadcasts =
          acc.broadcasts ++ tail ∧
        (∀ b ∈ tail, b.phase = "audio" ∧ b.total = total ∧
          i + 1 ≤ b.current ∧ b.current ≤ total) ∧
        List.Chain' (· < ·) (tail.map SW.Broadcast.current) := by
  intro rest
  induction rest with
  | nil =>
    intro i acc h
    exact ⟨[], by simp [SW.audioLoop], by simp, by simp⟩
  | cons text rest ih =>
    intro i acc h
    have htot : i < total := by
      simp only [List.length_cons] at h
      omega
    by_cases hab : aborted acc.tick = true
    · simp only [SW.audioLoop, hab, if_true]
      exact ⟨[], by simp, by simp, by simp⟩
    · obtain ⟨acc3, hstep, hb3⟩ :=
        audioLoop_cons ttsOk aborted total text rest i acc hab
      obtain ⟨tail, heq, hmem, hchain⟩ := ih (i + 1) acc3
        (by simp only [List.length_cons] at h; omega)
      refine ⟨(if i % 10 = 0 ∨ i = total - 1 then
          [⟨"audio", i + 1, total,
            jsRound (((i + 1 : ℕ) : ℚ) / (total : ℚ) * 100)⟩]
        else []) ++ tail, ?_, ?_, ?_⟩
      · rw [hstep, heq, hb3, List.append_assoc]
      · intro b hb
        rcases List.mem_append.mp hb with hb0 | hbt
        · by_cases hbc : i % 10 = 0 ∨ i = total - 1
          · rw [if_pos hbc] at hb0
            simp only [List.mem_singleton] at hb0
            subst hb0
            exact ⟨rfl, rfl, le_refl _, by show i + 1 ≤ total; omega⟩
          · rw [if_neg hbc] at hb0
            cases hb0
        · obtain ⟨hp, ht, hge, hle⟩ := hmem b hbt
          exact ⟨hp, ht, by omega, hle⟩
      · by_cases hbc : i % 10 = 0 ∨ i = total - 1
        · rw [if_pos hbc]
          simp only [List.singleton_append, List.map_cons]
          apply chain_lt_cons _ _ hchain
          intro x hx
          simp only [List.mem_map] at hx
          obtain ⟨b', hb', rfl⟩ := hx
          have h2 := (hmem b' hb').2.2.1
          simpa using by omega
        · rw [if_neg hbc]
          simpa using hchain

/-- One step of the fallback image loop: the broadcast list either grows
by the record for index `i` (cache hit or successful fetch) or is
unchanged (thrown fetch). -/
theorem fgPreloadImages_cons (fetchOk : String → Bool) (url : String)
    (rest : List String) (i total : ℕ) (acc : FG.FgLoopOut) :
    ∃ acc1 : FG.FgLoopOut,
      FG.fgPreloadImages fetchOk (url :: rest) i total acc =
        FG.fgPreloadImages fetchOk rest (i + 1) total acc1 ∧
      (acc1.broadcasts = acc.broadcasts ∨
        acc1.broadcasts = acc.broadcasts ++
          [⟨"images", i + 1, total,
            jsRound (((i + 1 : ℕ) : ℚ) / (total : ℚ) * 100)⟩]) := by
  simp only [FG.fgPreloadImages]
  refine ⟨_, rfl, ?_⟩
  (repeat' split) <;> simp

/-- The fallback image loop appends progress records with phase `images`,
totals equal to `total`, strictly increasing `current` values in
`(i, total]`. -/
theorem fgPreloadImages_broadcasts (fetchOk : String → Bool) :
    ∀ (rest : List String) (i total : ℕ) (acc : FG.FgLoopOut),
      i + rest.length = total →
      ∃ tail : List SW.Broadcast,
        (FG.fgPreloadImages fetchOk rest i total acc).broadcasts =
          acc.broadcasts ++ tail ∧
        (∀ b ∈ tail, b.phase = "images" ∧ b.total = total ∧
          i + 1 ≤ b.current ∧ b.current ≤ total) ∧
        List.Chain' (· < ·) (tail.map SW.Broadcast.current) := by
  intro rest
  induction rest with
  | nil =>
    intro i total acc h
    exact ⟨[], by simp [FG.fgPreloadImages], by simp, by simp⟩
  | cons url rest ih =>
    intro i total acc h
    have htot : i < total := by
      simp only [List.length_cons] at h
      omega
    obtain ⟨acc1, hstep, hb1⟩ := fgPreloadImages_cons fetchOk url rest i total acc
    obtain ⟨tail, heq, hmem, hchain⟩ := ih (i + 1) total acc1
      (by simp only [List.length_cons] at h; omega)
    rcases hb1 with hb1 | hb1
    · refine ⟨tail, ?_, ?_, hchain⟩
      · rw [hstep, heq, hb1]
      · intro b hb
        obtain ⟨hp, ht, hge, hle⟩ := hmem b hb
        exact ⟨hp, ht, by omega, hle⟩
    · refine ⟨⟨"images", i + 1, total,
          jsRound (((i + 1 : ℕ) : ℚ) / (total : ℚ) * 100)⟩ :: tail, ?_, ?_, ?_⟩
      · rw [hstep, heq, hb1]
        simp
      · intro b hb
        rcases List.mem_cons.mp hb with hb0 | hbt
        · subst hb0
          exact ⟨rfl, rfl, le_refl _, by show i + 1 ≤ total; omega⟩
        · obtain ⟨hp, ht, hge, hle⟩ := hmem b hbt
          exact ⟨hp, ht, by omega, hle⟩
      · simp only [List.map_cons]
        apply chain_lt_cons _ _ hchain
        intro x hx
        simp only [List.mem_map] at hx
        obtain ⟨b', hb', rfl⟩ := hx
        have h2 := (hmem b' hb').2.2.1
        simpa using by omega

/-- Broadcasts of one `handleBackgroundPreload` run split into an images
part followed by an audio part, each with `current ≤ total` and strictly
increasing `current`. -/
theorem hbp_broadcasts_spec (st : SW.SWState) (data : SW.PreloadData)
    (fetchOk ttsOk : String → Bool) (aborted : ℕ → Bool) (now : ℤ) :
    ∃ tI tA : List SW.Broadcast,
      (SW.handleBackgroundPreload st data fetchOk ttsOk aborted now).broadcasts =
        tI ++ tA ∧
      (∀ b ∈ tI, b.phase = "images" ∧ b.current ≤ b.total) ∧
      (∀ b ∈ tA, b.phase = "audio" ∧ b.current ≤ b.total) ∧
      List.Chain' (· < ·) (tI.map SW.Broadcast.current) ∧
      List.Chain' (· < ·) (tA.map SW.Broadcast.current) := by
  simp only [SW.handleBackgroundPreload]
  split
  · exact ⟨[], [], rfl, by simp, by simp, by simp, by simp⟩
  split
  · exact ⟨[], [], rfl, by simp, by simp, by simp, by simp⟩
  split
  · exact ⟨[], [], rfl, by simp, by simp, by simp, by simp⟩
  obtain ⟨tI, hIeq, hImem, hIchain⟩ := imagesLoop_broadcasts fetchOk aborted
    (data.imageUrls.getD []).length (data.imageUrls.getD []) 0
    { cache := st.cache, imagesLoaded := 0, imagesSkipped := 0,
      audioLoaded := 0, audioSkipped := 0, fetched := [], broadcasts := [],
      tick := 0 } (by simp)
  split
  · next hguard =>
    obtain ⟨tA, hAeq, hAmem, hAchain⟩ := audioLoop_broadcasts ttsOk aborted
      (data.audioTexts.getD []).length (data.audioTexts.getD []) 0
      { SW.imagesLoop fetchOk aborted (data.imageUrls.getD []).length
          (data.imageUrls.getD []) 0
          { cache := st.cache, imagesLoaded := 0, imagesSkipped := 0,
            audioLoaded := 0, audioSkipped := 0, fetched := [],
            broadcasts := [], tick := 0 } with
        tick := (SW.imagesLoop fetchOk aborted (data.imageUrls.getD []).length
          (data.imageUrls.getD []) 0
          { cache := st.cache, imagesLoaded := 0, imagesSkipped := 0,
            audioLoaded := 0, audioSkipped := 0, fetched := [],
            broadcasts := [], tick := 0 }).tick + 1 } (by simp)
    refine ⟨tI, tA, ?_, ?_, ?_, hIchain, hAchain⟩
    · split <;>
        · rw [hAeq]
          simp only []
          rw [hIeq]
          simp
    · intro b hb
      obtain ⟨hp, ht, _, hle⟩ := hImem b hb
      exact ⟨hp, by rw [ht]; exact hle⟩
    · intro b hb
      obtain ⟨hp, ht, _, hle⟩ := hAmem b hb
      exact ⟨hp, by rw [ht]; exact hle⟩
  · refine ⟨tI, [], ?_, ?_, by simp, hIchain, by simp⟩
    · split <;>
        · simp only []
          rw [hIeq]
          simp
    · intro b hb
      obtain ⟨hp, ht, _, hle⟩ := hImem b hb
      exact ⟨hp, by rw [ht]; exact hle⟩

theorem filter_phase_const (p q : String) (l : List SW.Broadcast)
    (h : ∀ b ∈ l, b.phase = q) :
    l.filter (fun b => b.phase == p) = if q = p then l else [] := by
  induction l with
  | nil => simp
  | cons a l ih =>
    have ha := h a (by simp)
    have ih2 := ih (fun b hb => h b (by simp [hb]))
    by_cases hq : q = p
    · subst hq
      simp [List.filter_cons, ha, ih2]
    · simp only [List.filter_cons, ha, ih2, if_neg hq]
      simp [hq]

/-- C6: within one preload cycle, for each phase the broadcast `current`
values are non-decreasing and never exceed `total` — both for the
service-worker orchestrator's progress messages and for the fallback
image loop of the page-context preloader. -/
theorem progress_monotonicity
    (st : SW.SWState) (data : SW.PreloadData) (fetchOk ttsOk : String → Bool)
    (aborted : ℕ → Bool) (now : ℤ) (p : String)
    (fgFetchOk : String → Bool) (urls store : List String) :
    List.Chain' (· ≤ ·)
      (((SW.handleBackgroundPreload st data fetchOk ttsOk aborted
          now).broadcasts.filter (fun b => b.phase == p)).map
        SW.Broadcast.current) ∧
    ((SW.handleBackgroundPreload st data fetchOk ttsOk aborted
        now).broadcasts.all (fun b => decide (b.current ≤ b.total)) = true) ∧
    List.Chain' (· ≤ ·)
      (((FG.fgPreloadImages fgFetchOk urls 0 urls.length
          ⟨store, [], []⟩).broadcasts.filter (fun b => b.phase == p)).map
        SW.Broadcast.current) ∧
    ((FG.fgPreloadImages fgFetchOk urls 0 urls.length
        ⟨store, [], []⟩).broadcasts.all
      (fun b => decide (b.current ≤ b.total)) = true) := by
  obtain ⟨tI, tA, heq, hImem, hAmem, hIchain, hAchain⟩ :=
    hbp_broadcasts_spec st data fetchOk ttsOk aborted now
  obtain ⟨tail, hfeq, hfmem, hfchain⟩ := fgPreloadImages_broadcasts fgFetchOk
    urls 0 urls.length ⟨store, [], []⟩ (by simp)
  have hfeq2 : (FG.fgPreloadImages fgFetchOk urls 0 urls.length
      ⟨store, [], []⟩).broadcasts = tail := by
    simpa using hfeq
  refine ⟨?_, ?_, ?_, ?_⟩
  · rw [heq, List.filter_append,
      filter_phase_const p "images" tI (fun b hb => (hImem b hb).1),
      filter_phase_const p "audio" tA (fun b hb => (hAmem b hb).1)]
    by_cases hip : "images" = p
    · have hap : ¬ ("audio" = p) := by
        rw [← hip]
        decide
      rw [if_pos hip, if_neg hap]
      simpa using List.Chain'.imp (fun a b h => le_of_lt h) hIchain
    · by_cases hap : "audio" = p
      · rw [if_neg hip, if_pos hap]
        simpa using List.Chain'.imp (fun a b h => le_of_lt h) hAchain
      · rw [if_neg hip, if_neg hap]
        simp
  · rw [List.all_eq_true]
    intro b hb
    rw [heq] at hb
    simp only [decide_eq_true_eq]
    rcases List.mem_append.mp hb with h1 | h1
    · exact (hImem b h1).2
    · exact (hAmem b h1).2
  · rw [hfeq2,
      filter_phase_const p "images" tail (fun b hb => (hfmem b hb).1)]
    by_cases hip : "images" = p
    · rw [if_pos hip]
      exact List.Chain'.imp (fun a b h => le_of_lt h) hfchain
    · rw [if_neg hip]
      simp
  · rw [List.all_eq_true]
    intro b hb
    rw [hfeq2] at hb
    simp only [decide_eq_true_eq]
    obtain ⟨_, ht, _, hle⟩ := hfmem b hb
    rw [ht]
    exact hle

/-- Witness for `progress_monotonicity` at a concrete two-image run. -/
theorem progress_monotonicity_witness :
    List.Chain' (· ≤ ·)
      (((SW.handleBackgroundPreload ⟨false, [], none⟩
          ⟨"u", some ["i1", "i2"], some ["t1"], some "T"⟩
          (fun _ => true) (fun _ => true) (fun _ => false) 0).broadcasts.filter
        (fun b => b.phase == "images")).map SW.Broadcast.current) :=
  (progress_monotonicity ⟨false, [], none⟩
    ⟨"u", some ["i1", "i2"], some ["t1"], some "T"⟩
    (fun _ => true) (fun _ => true) (fun _ => false) 0 "images"
    (fun _ => true) ["a"] []).1

/-- One non-aborted step of the image loop, tracking the tick and the
fetched list: the tick advances by one and the fetched list grows by at
most the current url. -/
theorem imagesLoop_cons_fetched (fetchOk : String → Bool) (aborted : ℕ → Bool)
    (total : ℕ) (url : String) (rest : List String) (i : ℕ) (acc : SW.RunAcc)
    (hab : ¬ aborted acc.tick = true) :
    ∃ acc3 : SW.RunAcc,
      SW.imagesLoop fetchOk aborted total (url :: rest) i acc =
        SW.imagesLoop fetchOk aborted total rest (i + 1) acc3 ∧
      acc3.tick = acc.tick + 1 ∧
      (acc3.fetched = acc.fetched ∨ acc3.fetched = acc.fetched ++ [url]) := by
  simp only [SW.imagesLoop]
  rw [if_neg hab]
  refine ⟨_, rfl, ?_, ?_⟩
  · (repeat' split) <;> simp
  · (repeat' split) <;> simp

/-- With the abort flag set from tick `k` onward and `k` within the image
list, the image loop ends with its tick at least `k` and has fetched only
urls among the first `k` of the remaining list. -/
theorem imagesLoop_abort (fetchOk : String → Bool) (k total : ℕ) :
    ∀ (rest : List String) (i : ℕ) (acc : SW.RunAcc),
      acc.tick = i → i ≤ k → k ≤ i + rest.length →
      k ≤ (SW.imagesLoop fetchOk (fun t => decide (k ≤ t)) total rest i
        acc).tick ∧
      (∀ u ∈ (SW.imagesLoop fetchOk (fun t => decide (k ≤ t)) total rest i
          acc).fetched, u ∈ acc.fetched ∨ u ∈ rest.take (k - i)) := by
  intro rest
  induction rest with
  | nil =>
    intro i acc htick hik hki
    simp only [List.length_nil, Nat.add_zero] at hki
    constructor
    · simp only [SW.imagesLoop]
      omega
    · intro u hu
      exact Or.inl (by simpa [SW.imagesLoop] using hu)
  | cons url rest ih =>
    intro i acc htick hik hki
    by_cases hk : k ≤ i
    · have habt : (fun t => decide (k ≤ t)) acc.tick = true := by
        simp [htick]
        omega
      constructor
      · simp only [SW.imagesLoop, habt, if_true]
        omega
      · intro u hu
        simp only [SW.imagesLoop, habt, if_true] at hu
        exact Or.inl hu
    · have habt : ¬ ((fun t => decide (k ≤ t)) acc.tick = true) := by
        simp [htick]
        omega
      obtain ⟨acc3, hstep, htick3, hfet3⟩ := imagesLoop_cons_fetched fetchOk
        (fun t => decide (k ≤ t)) total url rest i acc habt
      have hrec := ih (i + 1) acc3 (by omega)
        (by omega) (by simp only [List.length_cons] at hki; omega)
      rw [hstep]
      refine ⟨hrec.1, ?_⟩
      intro u hu
      rcases hrec.2 u hu with h1 | h1
      · rcases hfet3 with hf | hf
        · rw [hf] at h1
          exact Or.inl h1
        · rw [hf] at h1
          rcases List.mem_append.mp h1 with h2 | h2
          · exact Or.inl h2
          · right
            have hki1 : 1 ≤ k - i := by omega
            rw [List.take_cons (by omega)]
            simp only [List.mem_singleton] at h2
            subst h2
            exact List.mem_cons_self _ _
      · right
        rw [List.take_cons (by omega)]
        have : k - i - 1 = k - (i + 1) := by omega
        exact List.mem_cons_of_mem _ (by rw [this]; exact h1)

/-- C5 (amended): when the cooperative abort flag becomes set at tick `k`
during the image phase, the cycle checks it between consecutive items and
stops: only urls among the first `k` images are ever fetched, the audio
phase does not run a single item, no completion marker is written — but,
contrary to the original claim, no error/aborted terminal state is
broadcast: the message list of the run is empty. -/
theorem abort_stops_cycle
    (st : SW.SWState) (data : SW.PreloadData) (fetchOk ttsOk : String → Bool)
    (now : ℤ) (k : ℕ) (urls texts : List String)
    (hst : st.preloadInProgress = false) (hm : st.marker = none)
    (hne : data.email ≠ "")
    (himg : data.imageUrls = some urls) (haud : data.audioTexts = some texts)
    (hk : k ≤ urls.length) :
    (SW.handleBackgroundPreload st data fetchOk ttsOk
        (fun t => decide (k ≤ t)) now).marker = none ∧
    (SW.handleBackgroundPreload st data fetchOk ttsOk
        (fun t => decide (k ≤ t)) now).messages = [] ∧
    (∀ u ∈ (SW.handleBackgroundPreload st data fetchOk ttsOk
        (fun t => decide (k ≤ t)) now).fetched, u ∈ urls.take k) := by
  obtain ⟨htick, hfetch⟩ := imagesLoop_abort fetchOk k urls.length urls 0
    { cache := st.cache, imagesLoaded := 0, imagesSkipped := 0,
      audioLoaded := 0, audioSkipped := 0, fetched := [], broadcasts := [],
      tick := 0 } rfl (by omega) (by omega)
  simp only [SW.handleBackgroundPreload, hst, Bool.false_eq_true, if_false,
    himg, haud, Option.getD_some, hm]
  have hval2 : ¬ (data.email = "" ∨ (some urls : Option (List String)) = none ∨
      (some texts : Option (List String)) = none) := by
    simp [hne]
  rw [if_neg hval2]
  have hnc1 : ¬ ((SW.checkPreloadStatus none data.email now).isComplete =
      true) := by
    have hnc0 : (SW.checkPreloadStatus none data.email now).isComplete =
        false := rfl
    intro hcon
    rw [hnc0] at hcon
    exact Bool.false_ne_true hcon
  rw [if_neg hnc1]
  have hg1 : ¬ (¬ ((fun t => decide (k ≤ t))
      (SW.imagesLoop fetchOk (fun t => decide (k ≤ t)) urls.length urls 0
        { cache := st.cache, imagesLoaded := 0, imagesSkipped := 0,
          audioLoaded := 0, audioSkipped := 0, fetched := [], broadcasts := [],
          tick := 0 }).tick) = true ∧ data.ttsUrl ≠ none) := by
    intro hcon
    exact hcon.1 (by simpa using htick)
  rw [if_neg hg1]
  have hg2 : ¬ (¬ ((fun t => decide (k ≤ t))
      ({ SW.imagesLoop fetchOk (fun t => decide (k ≤ t)) urls.length urls 0
          { cache := st.cache, imagesLoaded := 0, imagesSkipped := 0,
            audioLoaded := 0, audioSkipped := 0, fetched := [],
            broadcasts := [], tick := 0 } with
        tick := (SW.imagesLoop fetchOk (fun t => decide (k ≤ t)) urls.length
          urls 0
          { cache := st.cache, imagesLoaded := 0, imagesSkipped := 0,
            audioLoaded := 0, audioSkipped := 0, fetched := [],
            broadcasts := [], tick := 0 }).tick + 1 }).tick) = true) := by
    simp only [SW.RunAcc.tick]
    simp only [decide_eq_true_eq, Decidable.not_not]
    omega
  rw [if_neg hg2]
  exact ⟨rfl, rfl, fun u hu => by
    rcases hfetch u hu with h1 | h1
    · cases h1
    · simpa using h1⟩

/-- C5 counterexample: in a cycle whose abort flag is set from the start,
processing stops and no completion marker is written, but no
error/aborted terminal state is broadcast either — the run posts no
message at all, contradicting the claim that observers receive an
`error`/`aborted` terminal state. -/
theorem abort_no_terminal_broadcast :
    (SW.handleBackgroundPreload ⟨false, [], none⟩
      ⟨"u", some ["i1", "i2"], some ["t1"], some "T"⟩
      (fun _ => true) (fun _ => true) (fun _ => true) 0).messages = [] ∧
    (SW.handleBackgroundPreload ⟨false, [], none⟩
      ⟨"u", some ["i1", "i2"], some ["t1"], some "T"⟩
      (fun _ => true) (fun _ => true) (fun _ => true) 0).marker = none ∧
    (SW.handleBackgroundPreload ⟨false, [], none⟩
      ⟨"u", some ["i1", "i2"], some ["t1"], some "T"⟩
      (fun _ => true) (fun _ => true) (fun _ => true) 0).fetched = [] ∧
    (SW.handleBackgroundPreload ⟨false, [], none⟩
      ⟨"u", some ["i1", "i2"], some ["t1"], some "T"⟩
      (fun _ => true) (fun _ => true) (fun _ => true) 0).broadcasts = [] :=
  ⟨rfl, rfl, rfl, rfl⟩

/-- Witness for `abort_stops_cycle`: abort arriving at tick 1 of a
two-image cycle leaves no marker and no messages, and the one fetched
url is among the first 1 urls. -/
theorem abort_stops_cycle_witness :
    (SW.handleBackgroundPreload ⟨false, [], none⟩
        ⟨"u", some ["i1", "i2"], some ["t1"], some "T"⟩
        (fun _ => true) (fun _ => true) (fun t => decide (1 ≤ t)) 0).marker =
      none ∧
    (SW.handleBackgroundPreload ⟨false, [], none⟩
        ⟨"u", some ["i1", "i2"], some ["t1"], some "T"⟩
        (fun _ => true) (fun _ => true) (fun t => decide (1 ≤ t)) 0).messages =
      [] ∧
    "i1" ∈ List.take 1 ["i1", "i2"] := by
  have h := abort_stops_cycle ⟨false, [], none⟩
    ⟨"u", some ["i1", "i2"], some ["t1"], some "T"⟩
    (fun _ => true) (fun _ => true) 0 1 ["i1", "i2"] ["t1"]
    rfl rfl (by decide) rfl rfl (by decide)
  have hf : (SW.handleBackgroundPreload ⟨false, [], none⟩
      ⟨"u", some ["i1", "i2"], some ["t1"], some "T"⟩
      (fun _ => true) (fun _ => true) (fun t => decide (1 ≤ t)) 0).fetched =
      ["i1"] := rfl
  exact ⟨h.1, h.2.1, h.2.2 "i1" (by rw [hf]; exact List.mem_singleton.mpr rfl)⟩
